import Mathlib

/-!
Verification development for the twins infant-care tracker.

The development shallowly embeds the state-synchronization and
urgency/scheduling core of the tracker (src/scripts/tracker.ts and
src/scripts/supabase.ts):

* the daily log store (`TrackerData`, `checkNewDay`, `giveMed`,
  `deleteEventFromPlanner`), with calendar date-keys represented by their
  day number (`getDateKey` produces one canonical `YYYY-MM-DD` string per
  calendar day and `new Date(key).getTime()` is strictly monotone in the
  day, so a `Nat` per day is an order-faithful representation);
* the medication urgency engine (`getMedUrgency`);
* the realtime listener's reconnect backoff (`scheduleReconnect`);
* the JSON-level ingestion path (`applyParsedData`) over an untyped
  `JVal` model of JavaScript values, since incoming remote documents have
  unknown shape.

JavaScript `Record`/object state is modelled by association lists that
keep insertion order, matching the enumeration order of non-integer
string keys of JS objects.  Machine numbers are modelled by `Int` (epoch
milliseconds, timestamps) and `Rat` (fractional minute arithmetic and
JSON numbers); JS `NaN` propagation in the milk-recommendation helpers is
modelled by `Option Rat` with `none` for NaN.
-/

/-- Association-list lookup, modelling JS object property read (first
binding wins; real JS objects have unique keys). -/
def alookup {κ β : Type} [DecidableEq κ] (k : κ) : List (κ × β) → Option β
  | [] => none
  | (k1, v) :: t => if k1 = k then some v else alookup k t

/-- Association-list update, modelling JS `obj[k] = v`: an existing key
keeps its position, a new key is appended (JS property insertion order). -/
def aset {κ β : Type} [DecidableEq κ] : List (κ × β) → κ → β → List (κ × β)
  | [], k, v => [(k, v)]
  | (k1, v1) :: t, k, v => if k1 = k then (k, v) :: t else (k1, v1) :: aset t k v

/-- Association-list removal, modelling JS `delete obj[k]`. -/
def aerase {κ β : Type} [DecidableEq κ] : List (κ × β) → κ → List (κ × β)
  | [], _ => []
  | (k1, v1) :: t, k => if k1 = k then t else (k1, v1) :: aerase t k

theorem alookup_aset_self {κ β : Type} [DecidableEq κ] (l : List (κ × β)) (k : κ) (v : β) :
    alookup k (aset l k v) = some v := by
  induction l with
  | nil => simp [aset, alookup]
  | cons h t ih =>
    by_cases hk : h.1 = k
    · simp [aset, hk, alookup]
    · simp [aset, hk, alookup, ih]

theorem alookup_aset_ne {κ β : Type} [DecidableEq κ] (l : List (κ × β)) (k k2 : κ) (v : β)
    (h : k2 ≠ k) : alookup k2 (aset l k v) = alookup k2 l := by
  induction l with
  | nil =>
    have hne : ¬ (k = k2) := fun hh => h hh.symm
    simp [aset, alookup, hne]
  | cons hd t ih =>
    rcases hd with ⟨k1, v1⟩
    by_cases hk : k1 = k
    · subst hk
      have hne : ¬ (k1 = k2) := fun hh => h hh.symm
      simp [aset, alookup, hne]
    · by_cases hk2 : k1 = k2
      · simp [aset, hk, alookup, hk2, h]
      · simp [aset, hk, alookup, hk2, ih]

/-- A key not bound in the list looks up to `none`. -/
theorem alookup_eq_none {κ β : Type} [DecidableEq κ] (l : List (κ × β)) (k : κ)
    (h : k ∉ l.map Prod.fst) : alookup k l = none := by
  induction l with
  | nil => simp [alookup]
  | cons hd t ih =>
    rcases hd with ⟨k1, v1⟩
    simp only [List.map_cons, List.mem_cons, not_or] at h
    have hne : ¬ (k1 = k) := fun hh => h.1 hh.symm
    simp [alookup, hne, ih h.2]

theorem alookup_aerase_self {κ β : Type} [DecidableEq κ] (l : List (κ × β)) (k : κ)
    (hn : (l.map Prod.fst).Nodup) : alookup k (aerase l k) = none := by
  induction l with
  | nil => simp [aerase, alookup]
  | cons hd t ih =>
    rcases hd with ⟨k1, v1⟩
    simp only [List.map_cons, List.nodup_cons] at hn
    by_cases hk : k1 = k
    · subst hk
      simp only [aerase, if_pos rfl]
      exact alookup_eq_none t k1 hn.1
    · simp only [aerase, if_neg hk, alookup, if_neg hk]
      exact ih hn.2

theorem alookup_aerase_ne {κ β : Type} [DecidableEq κ] (l : List (κ × β)) (k k2 : κ)
    (h : k2 ≠ k) : alookup k2 (aerase l k) = alookup k2 l := by
  induction l with
  | nil => simp [aerase]
  | cons hd t ih =>
    rcases hd with ⟨k1, v1⟩
    by_cases hk : k1 = k
    · subst hk
      have hne : ¬ (k1 = k2) := fun hh => h hh.symm
      simp [aerase, alookup, hne]
    · by_cases hk2 : k1 = k2
      · simp [aerase, hk, alookup, hk2, h]
      · simp [aerase, hk, alookup, hk2, ih]

/-- JS `Math.round` on a (finite) number: round half toward positive
infinity. -/
def jsRound (q : ℚ) : Int := ⌊q + 1 / 2⌋

/-- Decimal rendering of an integral JS number (`String(n)` and template
interpolation). -/
def jsNumStr (i : Int) : String :=
  if i < 0 then "-" ++ Nat.repr (-i).toNat else Nat.repr i.toNat

/-- JS `String(..).padStart(2, '0')`. -/
def padStart2 (s : String) : String :=
  if s.length = 0 then "00" else if s.length = 1 then "0" ++ s else s

/-! ## Realtime reconnect backoff (src/scripts/supabase.ts)

Only the backoff counter matters to the scheduling policy; the channel
handle and the timer id are environment resources. -/

/-- Reconnection state of the realtime subscription: the consecutive
failed-attempt counter (`reconnectAttempts` in src/scripts/supabase.ts). -/
structure SyncConnState where
  reconnectAttempts : Nat
  deriving DecidableEq

/-- Section: `MAX_RECONNECT_DELAY = 30000`. -/
def MAX_RECONNECT_DELAY : Nat := 30000

/-- Section: `BASE_RECONNECT_DELAY = 1000`. -/
def BASE_RECONNECT_DELAY : Nat := 1000

/-- `getReconnectDelay`: exponential backoff
`min(BASE * 2^attempts, MAX)`. -/
def getReconnectDelay (s : SyncConnState) : Nat :=
  min (BASE_RECONNECT_DELAY * 2 ^ s.reconnectAttempts) MAX_RECONNECT_DELAY

/-- `scheduleReconnect`: computes the delay from the current attempt
counter, then increments the counter.  Returns the scheduled delay in
milliseconds together with the new state. -/
def scheduleReconnect (s : SyncConnState) : Nat × SyncConnState :=
  (getReconnectDelay s, { reconnectAttempts := s.reconnectAttempts + 1 })

/-- The `SUBSCRIBED` branch of the `subscribe` status callback in
`subscribeToChanges`: a successful connection resets the attempt counter
to zero (and cancels any pending reconnect timer). -/
def onSubscribed (_s : SyncConnState) : SyncConnState :=
  { reconnectAttempts := 0 }

/-- State after `n` consecutive failures starting from state `s` (each
failure runs `scheduleReconnect` via `CHANNEL_ERROR` / `TIMED_OUT` /
`CLOSED`). -/
def afterFailures (s : SyncConnState) : Nat → SyncConnState
  | 0 => s
  | n + 1 => (scheduleReconnect (afterFailures s n)).2

/-- Delay scheduled by failure attempt number `n` (1-based) in a run of
consecutive failures starting from state `s`. -/
def delayOfAttempt (s : SyncConnState) (n : Nat) : Nat :=
  (scheduleReconnect (afterFailures s (n - 1))).1

/-! ## Typed data model (src/scripts/tracker.ts, interfaces at the top)

Dose times are canonical `"HH:MM"` strings in the source, consumed only
through `split(':').map(Number)`; they are represented here by their
parsed `(hour, minute)` integer pair.  The `children` and `logs` arrays
invariably hold exactly two entries (one per child, fixed cardinality),
modelled as pairs indexed by `Fin 2`. -/

/-- Interface `Medication`. -/
structure Medication where
  id : String
  name : String
  dosesPerDay : Nat
  doseTimes : List (Int × Int)
  deriving DecidableEq

/-- Interface `FeedSchedule`. -/
structure FeedSchedule where
  id : String
  name : String
  defaultAmount : ℚ
  times : Option (List (Int × Int))
  deriving DecidableEq

/-- Interface `Child`. -/
structure Child where
  name : String
  birthDate : Option String
  weightKg : Option ℚ
  weightDate : Option String
  medications : List Medication
  feedSchedules : List FeedSchedule
  deriving DecidableEq

/-- Interface `Feed`. -/
structure Feed where
  text : String
  time : String
  id : Int
  timestamp : Int
  deriving DecidableEq

/-- Interface `DiaperLog` (`type` is `'pee' | 'poop'`, kept as a string). -/
structure DiaperLog where
  type : String
  time : String
  timestamp : Int
  deriving DecidableEq

/-- Interface `MedLog`. -/
structure MedLog where
  medId : String
  medName : String
  doseIndex : Nat
  time : String
  timestamp : Int
  deriving DecidableEq

/-- Interface `DayLog`.  `medsDone` and `feedAmounts` are JS records,
modelled as insertion-ordered association lists. -/
structure DayLog where
  feeds : List Feed
  diapers : List DiaperLog
  meds : List MedLog
  medsDone : List (String × List Nat)
  feedAmounts : List (String × ℚ)
  deriving DecidableEq

/-- Interface `TrackerData`.  `today` is `string | null` in the source;
date-key strings are represented by their day number. -/
structure TrackerData where
  children : Child × Child
  today : Option Nat
  logs : DayLog × DayLog
  historicalLogs : List (Nat × (DayLog × DayLog))
  calendarUrl : Option String
  deriving DecidableEq

/-- The UI-level state the store operations close over: the tracker
document, the day currently being viewed (`viewingDate`), the current
wall-clock day (`getDateKey(new Date())`) and the current day's midnight
in epoch milliseconds (what `doseDate.setHours(h, m, 0, 0)` measures
from). -/
structure AppState where
  data : TrackerData
  viewingDay : Nat
  nowDay : Nat
  dayStartMs : Int
  deriving DecidableEq

/-- Projection of a two-element pair at a child index. -/
def pairGet {α : Type} (p : α × α) : Fin 2 → α
  | ⟨0, _⟩ => p.1
  | ⟨1, _⟩ => p.2

/-- Update of a two-element pair at a child index. -/
def pairSet {α : Type} (p : α × α) (i : Fin 2) (v : α) : α × α :=
  match i with
  | ⟨0, _⟩ => (v, p.2)
  | ⟨1, _⟩ => (p.1, v)

/-- A fresh empty `DayLog`
(`{ feeds: [], diapers: [], meds: [], medsDone: {}, feedAmounts: {} }`). -/
def emptyDayLog : DayLog := ⟨[], [], [], [], []⟩

/-- `isViewingToday()`: the viewed date-key equals the current date-key. -/
def isViewingToday (st : AppState) : Bool :=
  st.viewingDay == st.nowDay

/-- `hasAnyData(logs)`: some log has a feed, diaper or med event, or a
non-empty `medsDone` record. -/
def hasAnyData (logs : DayLog × DayLog) : Bool :=
  [logs.1, logs.2].any fun log =>
    !log.feeds.isEmpty || !log.diapers.isEmpty || !log.meds.isEmpty ||
      !log.medsDone.isEmpty

/-- The key sort in `checkNewDay`:
`Object.keys(historicalLogs).sort((a, b) => new Date(b).getTime() - new Date(a).getTime())`,
i.e. date-keys in descending calendar order (JS `sort` is stable;
enumeration order of the keys is insertion order). -/
def sortKeysDesc (l : List Nat) : List Nat :=
  l.insertionSort (fun a b => a ≥ b)

/-- `checkNewDay()`: on a date-key change, archive non-empty live logs
under the outgoing key (a `JSON.parse(JSON.stringify(..))` deep copy —
the identity on immutable values), prune the archive to the 30
most-recent date-keys, reset the live logs and set `today` to the new
key.  The UI refresh and persistence calls (`updateDate`, `saveData`) and
the `viewingDate` reset touch no tracker state. -/
def checkNewDay (d : TrackerData) (nowDay : Nat) : TrackerData :=
  if d.today = some nowDay then d
  else
    let d1 :=
      match d.today with
      | some oldKey =>
        if hasAnyData d.logs then
          let hl := aset d.historicalLogs oldKey d.logs
          let dates := sortKeysDesc (hl.map Prod.fst)
          let hl2 :=
            if dates.length > 30 then
              hl.filter fun (e : Nat × (DayLog × DayLog)) =>
                !((dates.drop 30).contains e.1)
            else hl
          { d with historicalLogs := hl2 }
        else d
      | none => d
    { d1 with today := some nowDay, logs := (emptyDayLog, emptyDayLog) }

/-- The per-log transform applied by `deleteEventFromPlanner`: removal by
exact timestamp match, with `medsDone` maintenance for medication
entries (an empty JS array is truthy, so the `if (log.medsDone[...])`
guard only excludes an absent key). -/
def deleteFromLog (log : DayLog) (eventType : String) (timestamp : Int) : DayLog :=
  if eventType = "feed" then
    { log with feeds := log.feeds.filter fun f => f.timestamp != timestamp }
  else if eventType = "pee" ∨ eventType = "poop" then
    { log with diapers := log.diapers.filter fun d =>
        !(d.type == eventType && d.timestamp == timestamp) }
  else if eventType = "med" then
    match log.meds.find? (fun m => m.timestamp == timestamp) with
    | none => log
    | some medEntry =>
      let meds2 := log.meds.filter fun m => m.timestamp != timestamp
      let medsDone2 :=
        match alookup medEntry.medId log.medsDone with
        | none => log.medsDone
        | some lst =>
          let l2 := lst.filter fun idx => idx != medEntry.doseIndex
          if l2.isEmpty then aerase log.medsDone medEntry.medId
          else aset log.medsDone medEntry.medId l2
      { log with meds := meds2, medsDone := medsDone2 }
  else log

/-- `deleteEventFromPlanner(childIndex, eventType, timestamp)`: mutates
the log pair returned by `getViewingLogs()` — the live pair when viewing
today, the archived pair stored in `historicalLogs` when viewing an
archived date (the source has no live-day guard here), and a discarded
fresh pair when viewing a date with no archive entry.  `saveData`,
sounds and re-rendering touch no tracker state. -/
def deleteEventFromPlanner (st : AppState) (ci : Fin 2) (eventType : String)
    (timestamp : Int) : AppState :=
  if isViewingToday st then
    { st with data := { st.data with
        logs := pairSet st.data.logs ci
          (deleteFromLog (pairGet st.data.logs ci) eventType timestamp) } }
  else
    match alookup st.viewingDay st.data.historicalLogs with
    | some pair =>
      { st with data := { st.data with
          historicalLogs := aset st.data.historicalLogs st.viewingDay
            (pairSet pair ci
              (deleteFromLog (pairGet pair ci) eventType timestamp)) } }
    | none => st

/-- JS `toLocaleTimeString('en-US', { hour: 'numeric', minute: '2-digit' })`
for a wall-clock hour and minute. -/
def formatTime12 (h m : Int) : String :=
  let h12 := if h % 12 = 0 then (12 : Int) else h % 12
  jsNumStr h12 ++ ":" ++ padStart2 (jsNumStr m) ++
    (if h ≥ 12 then " PM" else " AM")

/-- `giveMed(childIndex, medId, doseIndex)`: no-op unless viewing today;
creates the `medsDone` key when absent, and when the dose index is not
yet present, pushes it and appends a `MedLog` entry timestamped at the
scheduled dose time of the medication found by id (no entry is appended
when no medication has that id).  An out-of-range dose index makes the
source throw on `med.doseTimes[doseIndex].split` — after the `medsDone`
push; the error case carries no state.  Calendar sync, notification and
UI calls touch no tracker state. -/
def giveMed (st : AppState) (ci : Fin 2) (medId : String) (doseIndex : Nat) :
    Except String AppState :=
  if !isViewingToday st then .ok st
  else
    let log := pairGet st.data.logs ci
    let done0 := alookup medId log.medsDone
    let log1 :=
      match done0 with
      | none => { log with medsDone := aset log.medsDone medId [] }
      | some _ => log
    let lst := (alookup medId log1.medsDone).getD []
    if doseIndex ∈ lst then .ok st
    else
      let log2 := { log1 with medsDone := aset log1.medsDone medId (lst ++ [doseIndex]) }
      let child := pairGet st.data.children ci
      match child.medications.find? (fun m => m.id == medId) with
      | none =>
        .ok { st with data := { st.data with logs := pairSet st.data.logs ci log2 } }
      | some med =>
        match med.doseTimes.get? doseIndex with
        | none => .error "TypeError: cannot read properties of undefined (reading 'split')"
        | some hm =>
          let ts := st.dayStartMs + hm.1 * 3600000 + hm.2 * 60000
          let log3 := { log2 with meds := log2.meds ++
            [{ medId := medId, medName := med.name, doseIndex := doseIndex,
               time := formatTime12 hm.1 hm.2, timestamp := ts }] }
          .ok { st with data := { st.data with logs := pairSet st.data.logs ci log3 } }

/-! ## Medication urgency engine (`getMedUrgency`) -/

/-- The `nextDue` record built inside `getMedUrgency`. -/
structure NextDue where
  hour : Int
  min : Int
  index : Nat
  diffMins : ℚ
  deriving DecidableEq

/-- Interface `Urgency` (statuses are the literal strings
`'urgent' | 'soon' | 'normal' | 'done'`). -/
structure Urgency where
  status : String
  text : String
  nextDose : Option NextDue
  deriving DecidableEq

/-- Signed difference in minutes between a dose time interpreted as
occurring today (`doseDate.setHours(hour, min, 0, 0)`) and `now`:
`(doseDate.getTime() - now.getTime()) / 60000`. -/
def doseDiffMins (dayStartMs nowMs : Int) (hm : Int × Int) : ℚ :=
  ((dayStartMs + hm.1 * 3600000 + hm.2 * 60000 - nowMs : Int) : ℚ) / 60000

/-- The scan loop of `getMedUrgency` over `med.doseTimes`: skips indices
in `doneToday`, clears `allDone` at each missed index, and keeps the
candidate with strictly smaller `diffMins` (ties keep the earlier
index).  `i` is the loop counter, `acc` the `(allDone, nextDue)` pair. -/
def medLoopAux (done : List Nat) (dayStartMs nowMs : Int) :
    List (Int × Int) → Nat → Bool × Option NextDue → Bool × Option NextDue
  | [], _, acc => acc
  | hm :: rest, i, acc =>
    let acc2 :=
      if i ∈ done then acc
      else
        let d := doseDiffMins dayStartMs nowMs hm
        match acc.2 with
        | none => (false, some ⟨hm.1, hm.2, i, d⟩)
        | some cur =>
          (false, if d < cur.diffMins then some ⟨hm.1, hm.2, i, d⟩ else some cur)
    medLoopAux done dayStartMs nowMs rest (i + 1) acc2

/-- The `(allDone, nextDue)` result of the scan loop in `getMedUrgency`. -/
def medLoop (doseTimes : List (Int × Int)) (done : List Nat)
    (dayStartMs nowMs : Int) : Bool × Option NextDue :=
  medLoopAux done dayStartMs nowMs doseTimes 0 (true, none)

/-- `getMedUrgency(med, childIndex)`: classify the selected next dose.
`doneToday` is `log.medsDone[med.id] || []`.  Wall-clock hours are 0–23
in canonical dose times, where Lean's `%` agrees with the JS remainder.
The `(false, none)` loop outcome is impossible (clearing `allDone` always
installs a candidate); the source would dereference `null` there, and the
model returns a junk record on that dead branch. -/
def getMedUrgency (med : Medication) (log : DayLog) (dayStartMs nowMs : Int) :
    Urgency :=
  let doneToday := (alookup med.id log.medsDone).getD []
  match medLoop med.doseTimes doneToday dayStartMs nowMs with
  | (true, _) => ⟨"done", "Done", none⟩
  | (false, none) => ⟨"", "", none⟩
  | (false, some nd) =>
    let doseHour := if nd.hour % 12 = 0 then (12 : Int) else nd.hour % 12
    let doseAmPm := if nd.hour ≥ 12 then "pm" else "am"
    let doseTimeStr := jsNumStr doseHour ++
      (if nd.min > 0 then ":" ++ padStart2 (jsNumStr nd.min) else "") ++ doseAmPm
    if nd.diffMins < -30 then
      let overdueMinutes := |nd.diffMins|
      let overdueText :=
        if overdueMinutes < 60 then
          jsNumStr (jsRound overdueMinutes) ++ "m late (" ++ doseTimeStr ++ ")"
        else
          let hours := ⌊overdueMinutes / 60⌋
          let mins := jsRound (overdueMinutes - 60 * (⌊overdueMinutes / 60⌋ : ℚ))
          if mins > 0 then
            jsNumStr hours ++ "h " ++ jsNumStr mins ++ "m late (" ++ doseTimeStr ++ ")"
          else
            jsNumStr hours ++ "h late (" ++ doseTimeStr ++ ")"
      ⟨"urgent", overdueText, some nd⟩
    else if nd.diffMins < 30 then ⟨"urgent", "Now", some nd⟩
    else if nd.diffMins < 120 then
      ⟨"soon", jsNumStr (jsRound nd.diffMins) ++ "m (" ++ doseTimeStr ++ ")", some nd⟩
    else
      ⟨"normal", jsNumStr ⌊nd.diffMins / 60⌋ ++ "h (" ++ doseTimeStr ++ ")", some nd⟩

/-! ## Claim C9: reconnect backoff -/

theorem afterFailures_attempts (s : SyncConnState) (n : Nat) :
    (afterFailures s n).reconnectAttempts = s.reconnectAttempts + n := by
  induction n with
  | zero => rfl
  | succ k ih => simp [afterFailures, scheduleReconnect, ih, Nat.add_assoc]

/-- C9: starting from a reset (or freshly successful) connection, the
delay scheduled by consecutive failure attempt `n` is
`min(1000 · 2^(n-1), 30000)` milliseconds — 1 s, 2 s, 4 s, 8 s, 16 s for
attempts 1–5, then capped at 30 s — and a successful connection resets
the attempt counter so the next failure's delay is 1 s again. -/
theorem c9_reconnect_backoff (n : Nat) (hn : 1 ≤ n) :
    delayOfAttempt ⟨0⟩ n = min (1000 * 2 ^ (n - 1)) 30000 ∧
    (afterFailures ⟨0⟩ n).reconnectAttempts = n ∧
    (onSubscribed (afterFailures ⟨0⟩ n)).reconnectAttempts = 0 ∧
    delayOfAttempt (onSubscribed (afterFailures ⟨0⟩ n)) 1 = 1000 ∧
    delayOfAttempt ⟨0⟩ 1 = 1000 ∧ delayOfAttempt ⟨0⟩ 2 = 2000 ∧
    delayOfAttempt ⟨0⟩ 3 = 4000 ∧ delayOfAttempt ⟨0⟩ 4 = 8000 ∧
    delayOfAttempt ⟨0⟩ 5 = 16000 ∧ delayOfAttempt ⟨0⟩ 6 = 30000 ∧
    delayOfAttempt ⟨0⟩ 7 = 30000 := by
  refine ⟨?_, ?_, rfl, ?_, by decide, by decide, by decide, by decide, by decide,
    by decide, by decide⟩
  · show (scheduleReconnect (afterFailures ⟨0⟩ (n - 1))).1 = _
    simp [scheduleReconnect, getReconnectDelay, afterFailures_attempts,
      BASE_RECONNECT_DELAY, MAX_RECONNECT_DELAY]
  · simp [afterFailures_attempts]
  · show (scheduleReconnect (afterFailures (onSubscribed _) (1 - 1))).1 = _
    simp [scheduleReconnect, getReconnectDelay, afterFailures, onSubscribed,
      BASE_RECONNECT_DELAY, MAX_RECONNECT_DELAY]

/-- Witness for C9 at `n = 5`. -/
theorem c9_reconnect_backoff_witness :
    1 ≤ 5 ∧
    (delayOfAttempt ⟨0⟩ 5 = min (1000 * 2 ^ (5 - 1)) 30000 ∧
     (afterFailures ⟨0⟩ 5).reconnectAttempts = 5 ∧
     (onSubscribed (afterFailures ⟨0⟩ 5)).reconnectAttempts = 0 ∧
     delayOfAttempt (onSubscribed (afterFailures ⟨0⟩ 5)) 1 = 1000 ∧
     delayOfAttempt ⟨0⟩ 1 = 1000 ∧ delayOfAttempt ⟨0⟩ 2 = 2000 ∧
     delayOfAttempt ⟨0⟩ 3 = 4000 ∧ delayOfAttempt ⟨0⟩ 4 = 8000 ∧
     delayOfAttempt ⟨0⟩ 5 = 16000 ∧ delayOfAttempt ⟨0⟩ 6 = 30000 ∧
     delayOfAttempt ⟨0⟩ 7 = 30000) :=
  ⟨by decide, c9_reconnect_backoff 5 (by decide)⟩

/-! ## Claim C10: giveMed is idempotent on an already-done dose -/

/-- C10: if the dose index is already recorded in `medsDone` for that
medication, `giveMed` leaves the entire tracker state unchanged — no
duplicate dose index and no extra `MedLog` entry. -/
theorem c10_giveMed_idempotent (st : AppState) (ci : Fin 2) (medId : String)
    (doseIndex : Nat)
    (h : doseIndex ∈ (alookup medId (pairGet st.data.logs ci).medsDone).getD []) :
    giveMed st ci medId doseIndex = .ok st := by
  unfold giveMed
  cases hv : isViewingToday st with
  | false => rfl
  | true =>
    cases hl : alookup medId (pairGet st.data.logs ci).medsDone with
    | none => rw [hl] at h; simp at h
    | some lst =>
      rw [hl] at h
      simp only [Option.getD_some] at h
      simp [hv, hl, h]

/-- Concrete state for the C10 witness: a child with one medication whose
only dose is already given and recorded in both `meds` and `medsDone`. -/
def c10State : AppState :=
  AppState.mk
    (TrackerData.mk
      (⟨"A", none, none, none, [⟨"m1", "Med", 1, [(8, 0)]⟩], []⟩,
       ⟨"B", none, none, none, [], []⟩)
      (some 1)
      ({ emptyDayLog with
          meds := [⟨"m1", "Med", 0, "8:00 AM", 28800000⟩],
          medsDone := [("m1", [0])] }, emptyDayLog)
      [] none)
    1 1 0

/-- Witness for C10: giving an already-given dose is a no-op. -/
theorem c10_giveMed_idempotent_witness :
    (0 : Nat) ∈ (alookup "m1" (pairGet c10State.data.logs 0).medsDone).getD [] ∧
    giveMed c10State 0 "m1" 0 = .ok c10State :=
  ⟨by decide, c10_giveMed_idempotent c10State 0 "m1" 0 (by decide)⟩

/-! ## Claim C6: frame effect of event deletion on the archive -/

/-- State viewing an archived day: `today`'s key is day 2, the viewed day
is day 1, and `historicalLogs` holds an entry for day 1 containing one
feed with timestamp 100. -/
def c6ArchiveViewState : AppState :=
  AppState.mk
    (TrackerData.mk
      (⟨"A", none, none, none, [], []⟩, ⟨"B", none, none, none, [], []⟩)
      (some 2)
      (emptyDayLog, emptyDayLog)
      [(1, ({ emptyDayLog with feeds := [⟨"Feed 70mL", "8:00 AM", 1, 100⟩] },
            emptyDayLog))]
      none)
    1 2 0

/-- C6 counterexample: invoked while viewing an archived date,
`deleteEventFromPlanner` mutates the archived `DayLog` stored in
`historicalLogs` (the source deletes through `getViewingLogs()` with no
live-day guard), so the archive is not unchanged under every invocation
regardless of the viewed date. -/
theorem c6_delete_mutates_archive_counterexample :
    (deleteEventFromPlanner c6ArchiveViewState 0 "feed" 100).data.historicalLogs ≠
      c6ArchiveViewState.data.historicalLogs := by
  decide

/-- C6 (amended): whenever the live day is being viewed — the only
situation in which the planner UI renders a delete button —
`deleteEventFromPlanner` mutates only the live `DayLog` pair: the whole
archive `historicalLogs`, and every archived entry in it, as well as
`today` and the children, are unchanged. -/
theorem c6_delete_frame_live (st : AppState) (ci : Fin 2) (eventType : String)
    (timestamp : Int) (h : isViewingToday st = true) :
    (deleteEventFromPlanner st ci eventType timestamp).data.historicalLogs =
      st.data.historicalLogs ∧
    (∀ k, alookup k (deleteEventFromPlanner st ci eventType timestamp).data.historicalLogs =
      alookup k st.data.historicalLogs) ∧
    (deleteEventFromPlanner st ci eventType timestamp).data.today = st.data.today ∧
    (deleteEventFromPlanner st ci eventType timestamp).data.children = st.data.children := by
  refine ⟨?_, ?_, ?_, ?_⟩ <;> simp [deleteEventFromPlanner, h]

/-- State viewing the live day, with one live feed and one archived day. -/
def c6LiveViewState : AppState :=
  AppState.mk
    (TrackerData.mk
      (⟨"A", none, none, none, [], []⟩, ⟨"B", none, none, none, [], []⟩)
      (some 2)
      ({ emptyDayLog with feeds := [⟨"Feed 70mL", "8:00 AM", 1, 100⟩] },
       emptyDayLog)
      [(1, (emptyDayLog, emptyDayLog))]
      none)
    2 2 0

/-- Witness for C6 (amended): deleting a feed while viewing the live day
leaves the archive untouched. -/
theorem c6_delete_frame_live_witness :
    isViewingToday c6LiveViewState = true ∧
    ((deleteEventFromPlanner c6LiveViewState 0 "feed" 100).data.historicalLogs =
        c6LiveViewState.data.historicalLogs ∧
     (∀ k, alookup k (deleteEventFromPlanner c6LiveViewState 0 "feed" 100).data.historicalLogs =
        alookup k c6LiveViewState.data.historicalLogs) ∧
     (deleteEventFromPlanner c6LiveViewState 0 "feed" 100).data.today =
        c6LiveViewState.data.today ∧
     (deleteEventFromPlanner c6LiveViewState 0 "feed" 100).data.children =
        c6LiveViewState.data.children) :=
  ⟨by decide, c6_delete_frame_live c6LiveViewState 0 "feed" 100 (by decide)⟩

/-! ## Claims C2 and C7: day rollover and retention (`checkNewDay`) -/

theorem aset_of_not_mem {κ β : Type} [DecidableEq κ] (l : List (κ × β)) (k : κ) (v : β)
    (h : k ∉ l.map Prod.fst) : aset l k v = l ++ [(k, v)] := by
  induction l with
  | nil => rfl
  | cons hd t ih =>
    rcases hd with ⟨k1, v1⟩
    simp only [List.map_cons, List.mem_cons, not_or] at h
    have hne : ¬ (k1 = k) := fun hh => h.1 hh.symm
    simp [aset, hne, ih h.2]

theorem alookup_append_right {κ β : Type} [DecidableEq κ] (l1 l2 : List (κ × β)) (k : κ)
    (h : k ∉ l1.map Prod.fst) : alookup k (l1 ++ l2) = alookup k l2 := by
  induction l1 with
  | nil => rfl
  | cons hd t ih =>
    rcases hd with ⟨k1, v1⟩
    simp only [List.map_cons, List.mem_cons, not_or] at h
    have hne : ¬ (k1 = k) := fun hh => h.1 hh.symm
    simp [alookup, hne, ih h.2]

theorem natContains_iff (l : List Nat) (a : Nat) : l.contains a = true ↔ a ∈ l :=
  List.elem_iff

theorem sortKeysDesc_sorted (l : List Nat) : (sortKeysDesc l).Sorted (· ≥ ·) :=
  List.sorted_insertionSort _ l

theorem sortKeysDesc_perm (l : List Nat) : List.Perm (sortKeysDesc l) l :=
  List.perm_insertionSort _ l

/-- In the descending key sort, an element that is the unique maximum is
the head, hence never among the dropped tail. -/
theorem unique_max_not_mem_drop (l : List Nat) (x : Nat) (hx : x ∈ l)
    (hmax : ∀ y ∈ l, y ≤ x) (hc : l.count x = 1) (n : Nat) (hn : 1 ≤ n) :
    x ∉ (sortKeysDesc l).drop n := by
  have hperm := sortKeysDesc_perm l
  have hsort := sortKeysDesc_sorted l
  have hxs : x ∈ sortKeysDesc l := hperm.mem_iff.mpr hx
  have hcs : (sortKeysDesc l).count x = 1 := by rw [hperm.count_eq]; exact hc
  cases hs : sortKeysDesc l with
  | nil => rw [hs] at hxs; simp at hxs
  | cons h t =>
    rw [hs] at hxs hcs hsort
    have hhmem : h ∈ l := hperm.mem_iff.mp (by rw [hs]; exact List.mem_cons_self h t)
    have hhx : h = x := by
      rcases List.mem_cons.mp hxs with he | ht
      · exact he.symm
      · exact le_antisymm (hmax h hhmem) (List.rel_of_sorted_cons hsort x ht)
    have hxt : x ∉ t := by
      rw [hhx, List.count_cons_self] at hcs
      exact List.count_eq_zero.mp (by omega)
    intro hd
    have hsub : (h :: t).drop n ⊆ t := by
      cases n with
      | zero => omega
      | succ m => rw [List.drop_succ_cons]; exact List.drop_subset m t
    exact hxt (hsub hd)

/-- Unfolding of `checkNewDay` on an actual rollover with non-empty
outgoing live logs. -/
theorem checkNewDay_rollover (d : TrackerData) (nowDay oldKey : Nat)
    (hne : ¬ d.today = some nowDay) (ho : d.today = some oldKey)
    (hd : hasAnyData d.logs = true) :
    checkNewDay d nowDay =
      { d with
        historicalLogs :=
          if (sortKeysDesc ((aset d.historicalLogs oldKey d.logs).map Prod.fst)).length > 30 then
            (aset d.historicalLogs oldKey d.logs).filter fun e =>
              !(((sortKeysDesc ((aset d.historicalLogs oldKey d.logs).map Prod.fst)).drop 30).contains e.1)
          else aset d.historicalLogs oldKey d.logs,
        today := some nowDay,
        logs := (emptyDayLog, emptyDayLog) } := by
  have hne2 : ¬ (some oldKey = some nowDay) := by rw [← ho]; exact hne
  simp only [checkNewDay, ho, hd, if_neg hne2, if_pos]

/-- When the stored `today` key already matches, `checkNewDay` is the
identity. -/
theorem checkNewDay_noop (d : TrackerData) (nowDay : Nat)
    (h : d.today = some nowDay) : checkNewDay d nowDay = d := by
  simp [checkNewDay, h]

/-- C2: with the live logs non-empty and every archived key an earlier
calendar day than the stored `today` key `D1`, running `checkNewDay` at a
time whose date-key `D2` differs from `D1` archives the live log pair
under `D1` (deep copy = the pair itself on immutable values), resets both
live logs, sets `today := D2`, and running it again immediately is a
no-op. -/
theorem c2_day_rollover (d : TrackerData) (nowDay D1 : Nat)
    (h1 : d.today = some D1)
    (h2 : hasAnyData d.logs = true)
    (h3 : nowDay ≠ D1)
    (h4 : ∀ k ∈ d.historicalLogs.map Prod.fst, k < D1) :
    alookup D1 (checkNewDay d nowDay).historicalLogs = some d.logs ∧
    (checkNewDay d nowDay).logs = (emptyDayLog, emptyDayLog) ∧
    (checkNewDay d nowDay).today = some nowDay ∧
    checkNewDay (checkNewDay d nowDay) nowDay = checkNewDay d nowDay := by
  have hne : ¬ d.today = some nowDay := by
    rw [h1]
    intro hc
    exact h3 (Option.some.inj hc).symm
  have hrw := checkNewDay_rollover d nowDay D1 hne h1 h2
  have hnotmem : D1 ∉ d.historicalLogs.map Prod.fst := fun hm => lt_irrefl D1 (h4 D1 hm)
  have hset : aset d.historicalLogs D1 d.logs = d.historicalLogs ++ [(D1, d.logs)] :=
    aset_of_not_mem _ _ _ hnotmem
  have hkeys : (aset d.historicalLogs D1 d.logs).map Prod.fst
      = d.historicalLogs.map Prod.fst ++ [D1] := by rw [hset]; simp
  refine ⟨?_, by rw [hrw], by rw [hrw], ?_⟩
  · rw [hrw]
    simp only
    split_ifs with hlen
    · have hmem : D1 ∈ (aset d.historicalLogs D1 d.logs).map Prod.fst := by
        rw [hkeys]; simp
      have hmax : ∀ y ∈ (aset d.historicalLogs D1 d.logs).map Prod.fst, y ≤ D1 := by
        rw [hkeys]
        intro y hy
        rcases List.mem_append.mp hy with hy1 | hy2
        · exact le_of_lt (h4 y hy1)
        · simp only [List.mem_singleton] at hy2
          omega
      have hcount : ((aset d.historicalLogs D1 d.logs).map Prod.fst).count D1 = 1 := by
        rw [hkeys, List.count_append]
        have hc0 : (d.historicalLogs.map Prod.fst).count D1 = 0 :=
          List.count_eq_zero.mpr hnotmem
        simp [hc0]
      have hnd : D1 ∉ (sortKeysDesc ((aset d.historicalLogs D1 d.logs).map Prod.fst)).drop 30 :=
        unique_max_not_mem_drop _ D1 hmem hmax hcount 30 (by omega)
      have hcontains :
          ((sortKeysDesc ((aset d.historicalLogs D1 d.logs).map Prod.fst)).drop 30).contains D1 = false := by
        cases hcb : ((sortKeysDesc ((aset d.historicalLogs D1 d.logs).map Prod.fst)).drop 30).contains D1 with
        | false => rfl
        | true => exact absurd ((natContains_iff _ _).mp hcb) hnd
      rw [hkeys] at hnd
      conv_lhs => rw [hset]
      rw [List.filter_append]
      rw [alookup_append_right]
      · simp only [List.map_append, List.map_cons, List.map_nil]
        simp [List.filter, alookup, hnd]
      · intro hm
        rcases List.mem_map.mp hm with ⟨e, he, hfe⟩
        exact hnotmem (hfe ▸ List.mem_map_of_mem Prod.fst (List.mem_of_mem_filter he))
    · rw [hset, alookup_append_right _ _ _ hnotmem]
      simp [alookup]
  · have ht : (checkNewDay d nowDay).today = some nowDay := by rw [hrw]
    exact checkNewDay_noop _ _ ht

/-- Witness for C2: one archived day 1, live feed on day 2, rollover to
day 3. -/
theorem c2_day_rollover_witness :
    ((TrackerData.mk
        (⟨"A", none, none, none, [], []⟩, ⟨"B", none, none, none, [], []⟩)
        (some 2)
        ({ emptyDayLog with feeds := [⟨"Feed 70mL", "8:00 AM", 1, 100⟩] },
         emptyDayLog)
        [(1, (emptyDayLog, emptyDayLog))]
        none).today = some 2 ∧
      hasAnyData (TrackerData.mk
        (⟨"A", none, none, none, [], []⟩, ⟨"B", none, none, none, [], []⟩)
        (some 2)
        ({ emptyDayLog with feeds := [⟨"Feed 70mL", "8:00 AM", 1, 100⟩] },
         emptyDayLog)
        [(1, (emptyDayLog, emptyDayLog))]
        none).logs = true ∧ (3 : Nat) ≠ 2) ∧
    (alookup 2 (checkNewDay (TrackerData.mk
        (⟨"A", none, none, none, [], []⟩, ⟨"B", none, none, none, [], []⟩)
        (some 2)
        ({ emptyDayLog with feeds := [⟨"Feed 70mL", "8:00 AM", 1, 100⟩] },
         emptyDayLog)
        [(1, (emptyDayLog, emptyDayLog))]
        none) 3).historicalLogs = some (TrackerData.mk
        (⟨"A", none, none, none, [], []⟩, ⟨"B", none, none, none, [], []⟩)
        (some 2)
        ({ emptyDayLog with feeds := [⟨"Feed 70mL", "8:00 AM", 1, 100⟩] },
         emptyDayLog)
        [(1, (emptyDayLog, emptyDayLog))]
        none).logs) :=
  ⟨⟨rfl, by decide, by decide⟩,
    (c2_day_rollover _ 3 2 rfl (by decide) (by decide) (by decide)).1⟩

theorem length_filter_key_ne {β : Type} (l : List (Nat × β)) (m : Nat) :
    (l.filter (fun e => !(decide (e.1 = m)))).length + (l.map Prod.fst).count m = l.length := by
  induction l with
  | nil => simp
  | cons hd t ih =>
    by_cases hm : hd.1 = m
    · simp only [List.filter_cons, List.map_cons, List.count_cons]
      simp [hm]
      omega
    · simp only [List.filter_cons, List.map_cons, List.count_cons]
      simp [hm]
      omega

/-- C7 (amended): when a rollover actually archives the outgoing live
logs as a 31st entry (30 archived entries, all 31 keys distinct), exactly
30 entries remain and the surviving keys are exactly those keys among the
31 that are not the calendar-oldest (i.e. those with a strictly smaller
key present).  The ≤ 30 bound holds only on this archiving path: the
prune lives inside the archive branch of `checkNewDay`, so a rollover
with empty outgoing logs leaves an oversized archive untouched. -/
theorem c7_retention_amended (d : TrackerData) (nowDay D1 : Nat)
    (h1 : d.today = some D1) (h2 : hasAnyData d.logs = true) (h3 : nowDay ≠ D1)
    (h5 : d.historicalLogs.length = 30)
    (h6 : (D1 :: d.historicalLogs.map Prod.fst).Nodup) :
    (checkNewDay d nowDay).historicalLogs.length = 30 ∧
    (∀ k, k ∈ (checkNewDay d nowDay).historicalLogs.map Prod.fst ↔
      (k ∈ D1 :: d.historicalLogs.map Prod.fst ∧
       ∃ j ∈ D1 :: d.historicalLogs.map Prod.fst, j < k)) := by
  have hne : ¬ d.today = some nowDay := by
    rw [h1]
    intro hc
    exact h3 (Option.some.inj hc).symm
  have hrw := checkNewDay_rollover d nowDay D1 hne h1 h2
  have hnotmem : D1 ∉ d.historicalLogs.map Prod.fst := by
    have := List.nodup_cons.mp h6
    exact this.1
  have hpnodup : (d.historicalLogs.map Prod.fst).Nodup := (List.nodup_cons.mp h6).2
  have hset : aset d.historicalLogs D1 d.logs = d.historicalLogs ++ [(D1, d.logs)] :=
    aset_of_not_mem _ _ _ hnotmem
  have hkeys : (aset d.historicalLogs D1 d.logs).map Prod.fst
      = d.historicalLogs.map Prod.fst ++ [D1] := by rw [hset]; simp
  have hKperm : List.Perm ((aset d.historicalLogs D1 d.logs).map Prod.fst)
      (D1 :: d.historicalLogs.map Prod.fst) := by
    rw [hkeys]
    exact List.perm_append_singleton D1 _
  have hknodup : ((aset d.historicalLogs D1 d.logs).map Prod.fst).Nodup :=
    hKperm.nodup_iff.mpr h6
  have hklen : ((aset d.historicalLogs D1 d.logs).map Prod.fst).length = 31 := by
    rw [hkeys]
    simp [h5]
  have hdperm : List.Perm (sortKeysDesc ((aset d.historicalLogs D1 d.logs).map Prod.fst))
      ((aset d.historicalLogs D1 d.logs).map Prod.fst) := sortKeysDesc_perm _
  have hdlen : (sortKeysDesc ((aset d.historicalLogs D1 d.logs).map Prod.fst)).length = 31 :=
    hdperm.length_eq.trans hklen
  have hdnodup : (sortKeysDesc ((aset d.historicalLogs D1 d.logs).map Prod.fst)).Nodup :=
    hdperm.nodup_iff.mpr hknodup
  have hgt : (sortKeysDesc ((aset d.historicalLogs D1 d.logs).map Prod.fst)).length > 30 := by
    omega
  obtain ⟨m, hm⟩ : ∃ m,
      (sortKeysDesc ((aset d.historicalLogs D1 d.logs).map Prod.fst)).drop 30 = [m] := by
    apply List.length_eq_one.mp
    rw [List.length_drop]
    omega
  have hmmemd : m ∈ sortKeysDesc ((aset d.historicalLogs D1 d.logs).map Prod.fst) :=
    List.drop_subset 30 _ (by rw [hm]; exact List.mem_singleton_self m)
  have hmin : ∀ y ∈ sortKeysDesc ((aset d.historicalLogs D1 d.logs).map Prod.fst), m ≤ y := by
    intro y hy
    have hsplit := (List.take_append_drop 30
      (sortKeysDesc ((aset d.historicalLogs D1 d.logs).map Prod.fst))).symm
    have hpair : (sortKeysDesc ((aset d.historicalLogs D1 d.logs).map Prod.fst)).Pairwise
        (· ≥ ·) := sortKeysDesc_sorted _
    rw [hsplit] at hpair hy
    rcases List.mem_append.mp hy with hy1 | hy2
    · exact (List.pairwise_append.mp hpair).2.2 y hy1 m (by rw [hm]; exact List.mem_singleton_self m)
    · rw [hm] at hy2
      rw [List.mem_singleton.mp hy2]
  have hcontm : ∀ x : Nat,
      ((sortKeysDesc ((aset d.historicalLogs D1 d.logs).map Prod.fst)).drop 30).contains x
        = decide (x = m) := by
    intro x
    rw [hm]
    simp [List.contains]
  rw [hrw]
  simp only [if_pos hgt]
  constructor
  · -- exactly 30 entries remain
    have hcong : (aset d.historicalLogs D1 d.logs).filter
        (fun e => !(((sortKeysDesc ((aset d.historicalLogs D1 d.logs).map Prod.fst)).drop 30).contains e.1))
        = (aset d.historicalLogs D1 d.logs).filter (fun e => !(decide (e.1 = m))) := by
      apply List.filter_congr
      intro e _
      rw [hcontm e.1]
    rw [hcong]
    have hlf := length_filter_key_ne (aset d.historicalLogs D1 d.logs) m
    have hmk : m ∈ (aset d.historicalLogs D1 d.logs).map Prod.fst := hdperm.mem_iff.mp hmmemd
    have hc1 : ((aset d.historicalLogs D1 d.logs).map Prod.fst).count m = 1 :=
      List.count_eq_one_of_mem hknodup hmk
    have hlen : (aset d.historicalLogs D1 d.logs).length = 31 := by
      rw [hset]
      simp [h5]
    omega
  · -- surviving keys are exactly the non-minimal ones
    intro k
    have hmemchar : k ∈ ((aset d.historicalLogs D1 d.logs).filter
        (fun e => !(((sortKeysDesc ((aset d.historicalLogs D1 d.logs).map Prod.fst)).drop 30).contains e.1))).map Prod.fst
        ↔ (k ∈ (aset d.historicalLogs D1 d.logs).map Prod.fst ∧ ¬ (k = m)) := by
      constructor
      · intro hk
        rcases List.mem_map.mp hk with ⟨e, hef, hek⟩
        have hfe := List.mem_filter.mp hef
        refine ⟨hek ▸ List.mem_map_of_mem Prod.fst hfe.1, ?_⟩
        intro hkm
        have := hfe.2
        rw [hcontm e.1, hek, hkm] at this
        simp at this
      · rintro ⟨hk, hkm⟩
        rcases List.mem_map.mp hk with ⟨e, he, hek⟩
        exact List.mem_map.mpr ⟨e, List.mem_filter.mpr ⟨he, by rw [hcontm e.1, hek]; simp [hkm]⟩, hek⟩
    rw [hmemchar]
    constructor
    · rintro ⟨hk, hkm⟩
      refine ⟨hKperm.mem_iff.mp hk, m, hKperm.mem_iff.mp (hdperm.mem_iff.mp hmmemd), ?_⟩
      have hkd : k ∈ sortKeysDesc ((aset d.historicalLogs D1 d.logs).map Prod.fst) :=
        hdperm.mem_iff.mpr hk
      have := hmin k hkd
      omega
    · rintro ⟨hkK, j, hjK, hjk⟩
      refine ⟨hKperm.mem_iff.mpr hkK, ?_⟩
      intro hkm
      have hjd : j ∈ sortKeysDesc ((aset d.historicalLogs D1 d.logs).map Prod.fst) :=
        hdperm.mem_iff.mpr (hKperm.mem_iff.mpr hjK)
      have := hmin j hjd
      omega

/-- State with 31 archived days and empty live logs. -/
def c7OversizeState : TrackerData :=
  TrackerData.mk
    (⟨"A", none, none, none, [], []⟩, ⟨"B", none, none, none, [], []⟩)
    (some 100)
    (emptyDayLog, emptyDayLog)
    ((List.range 31).map fun i => (i, (emptyDayLog, emptyDayLog)))
    none

/-- C7 counterexample: a rollover check that performs a rollover (the
stored key changes) with empty outgoing live logs leaves all 31 archived
entries in place — the 30-entry prune lives inside the archive branch of
`checkNewDay`, so `historicalLogs` can hold more than 30 entries after a
rollover check. -/
theorem c7_counterexample :
    (checkNewDay c7OversizeState 101).today = some 101 ∧
    (checkNewDay c7OversizeState 101).historicalLogs.length = 31 := by
  decide

/-- Witness state for C7 (amended): 30 archived days 0–29, live feed,
`today` = day 50. -/
def c7WitState : TrackerData :=
  TrackerData.mk
    (⟨"A", none, none, none, [], []⟩, ⟨"B", none, none, none, [], []⟩)
    (some 50)
    ({ emptyDayLog with feeds := [⟨"Feed 70mL", "8:00 AM", 1, 100⟩] },
     emptyDayLog)
    ((List.range 30).map fun i => (i, (emptyDayLog, emptyDayLog)))
    none

/-- Witness for C7 (amended) at a concrete 31-key rollover. -/
theorem c7_retention_amended_witness :
    (c7WitState.today = some 50 ∧ hasAnyData c7WitState.logs = true ∧ (51 : Nat) ≠ 50 ∧
     c7WitState.historicalLogs.length = 30 ∧
     (50 :: c7WitState.historicalLogs.map Prod.fst).Nodup) ∧
    ((checkNewDay c7WitState 51).historicalLogs.length = 30 ∧
     (∀ k, k ∈ (checkNewDay c7WitState 51).historicalLogs.map Prod.fst ↔
       (k ∈ 50 :: c7WitState.historicalLogs.map Prod.fst ∧
        ∃ j ∈ 50 :: c7WitState.historicalLogs.map Prod.fst, j < k))) :=
  ⟨⟨rfl, by decide, by decide, by decide, by decide⟩,
   c7_retention_amended c7WitState 51 50 rfl (by decide) (by decide) (by decide) (by decide)⟩

/-! ## Claim C5: medsDone / MedLog lockstep invariant -/

/-- The `DayLog` invariant claimed by the data model: a dose index is in
`medsDone` for a medication id iff a `MedLog` entry with that id and
index exists. -/
def lockstep (log : DayLog) : Prop :=
  ∀ (medId : String) (i : Nat),
    i ∈ (alookup medId log.medsDone).getD [] ↔
      ∃ e ∈ log.meds, e.medId = medId ∧ e.doseIndex = i

theorem pairGet_pairSet_self {α : Type} (p : α × α) (i : Fin 2) (v : α) :
    pairGet (pairSet p i v) i = v :=
  match i with
  | ⟨0, _⟩ => rfl
  | ⟨1, _⟩ => rfl

theorem nodup_map_mem_inj {α β : Type} (f : α → β) (l : List α)
    (hn : (l.map f).Nodup) :
    ∀ x ∈ l, ∀ y ∈ l, f x = f y → x = y := by
  induction l with
  | nil => simp
  | cons hd t ih =>
    simp only [List.map_cons, List.nodup_cons] at hn
    intro x hx y hy hf
    rcases List.mem_cons.mp hx with rfl | hx2
    · rcases List.mem_cons.mp hy with rfl | hy2
      · rfl
      · exact absurd (hf ▸ List.mem_map_of_mem f hy2) hn.1
    · rcases List.mem_cons.mp hy with rfl | hy2
      · exact absurd (hf ▸ List.mem_map_of_mem f hx2) hn.1
      · exact ih hn.2 x hx2 y hy2 hf

/-- Appending one `MedLog` entry and pushing its dose index preserves the
lockstep invariant (stated through the lookups that the final `medsDone`
satisfies, so it covers both the key-existed and key-created paths of
`giveMed`). -/
theorem lockstep_push_core (log : DayLog) (medId : String) (doseIndex : Nat)
    (newEntry : MedLog) (md2 : List (String × List Nat)) (meds2 : List MedLog)
    (hid : newEntry.medId = medId) (hidx : newEntry.doseIndex = doseIndex)
    (hmeds : meds2 = log.meds ++ [newEntry])
    (hself : alookup medId md2 = some ((alookup medId log.medsDone).getD [] ++ [doseIndex]))
    (hother : ∀ mid, mid ≠ medId → alookup mid md2 = alookup mid log.medsDone)
    (hls : lockstep log) :
    lockstep { log with meds := meds2, medsDone := md2 } := by
  intro mid i
  subst hmeds
  show i ∈ (alookup mid md2).getD [] ↔ _
  by_cases hmid : mid = medId
  · subst hmid
    rw [hself]
    simp only [Option.getD_some, List.mem_append, List.mem_singleton]
    constructor
    · rintro (hin | rfl)
      · rcases (hls mid i).mp hin with ⟨e, he, hp⟩
        exact ⟨e, Or.inl he, hp⟩
      · exact ⟨newEntry, Or.inr rfl, hid, hidx⟩
    · rintro ⟨e, he, hp⟩
      rcases he with he1 | rfl
      · exact Or.inl ((hls mid i).mpr ⟨e, he1, hp⟩)
      · right
        rw [← hp.2, hidx]
  · rw [hother mid hmid]
    constructor
    · intro hin
      rcases (hls mid i).mp hin with ⟨e, he, hp⟩
      exact ⟨e, List.mem_append_left _ he, hp⟩
    · rintro ⟨e, he, hp⟩
      rcases List.mem_append.mp he with he1 | he2
      · exact (hls mid i).mpr ⟨e, he1, hp⟩
      · exfalso
        rw [List.mem_singleton.mp he2] at hp
        exact hmid (by rw [← hp.1, hid])

/-- `giveMed` preserves the lockstep invariant provided the medication id
resolves to a medication of the child and the dose index is within its
schedule. -/
theorem giveMed_lockstep (st : AppState) (ci : Fin 2) (medId : String)
    (doseIndex : Nat) (med : Medication) (st2 : AppState)
    (hls : lockstep (pairGet st.data.logs ci))
    (hfind : (pairGet st.data.children ci).medications.find? (fun m => m.id == medId)
      = some med)
    (hlt : doseIndex < med.doseTimes.length)
    (hok : giveMed st ci medId doseIndex = .ok st2) :
    lockstep (pairGet st2.data.logs ci) := by
  unfold giveMed at hok
  cases hv : isViewingToday st with
  | false =>
    rw [hv] at hok
    simp only [Bool.not_false, if_pos] at hok
    cases hok
    exact hls
  | true =>
    rw [hv] at hok
    simp only [Bool.not_true, Bool.false_eq_true, if_false] at hok
    have hget : med.doseTimes.get? doseIndex = some (med.doseTimes.get ⟨doseIndex, hlt⟩) :=
      List.get?_eq_get hlt
    simp only [hfind, hget] at hok
    by_cases hmem : doseIndex ∈
        ((alookup medId
          (match alookup medId (pairGet st.data.logs ci).medsDone with
           | none => { pairGet st.data.logs ci with
               medsDone := aset (pairGet st.data.logs ci).medsDone medId [] }
           | some _ => pairGet st.data.logs ci).medsDone).getD [])
    · rw [if_pos hmem] at hok
      cases hok
      exact hls
    · rw [if_neg hmem] at hok
      cases hok
      rw [pairGet_pairSet_self]
      cases hd0 : alookup medId (pairGet st.data.logs ci).medsDone with
      | none =>
        simp only [hd0, Option.getD_none] at hmem ⊢
        refine lockstep_push_core (pairGet st.data.logs ci) medId doseIndex _ _ _ rfl rfl rfl
          ?_ ?_ hls
        · rw [alookup_aset_self]
          simp [alookup_aset_self, hd0]
        · intro mid hmid
          rw [alookup_aset_ne _ _ _ _ hmid, alookup_aset_ne _ _ _ _ hmid]
      | some l0 =>
        simp only [hd0, Option.getD_some] at hmem ⊢
        refine lockstep_push_core (pairGet st.data.logs ci) medId doseIndex _ _ _ rfl rfl rfl
          ?_ ?_ hls
        · simp [alookup_aset_self, hd0]
        · intro mid hmid
          rw [alookup_aset_ne _ _ _ _ hmid]

/-- Reduction of `deleteFromLog` at event type `"med"`. -/
theorem deleteFromLog_med (log : DayLog) (ts : Int) :
    deleteFromLog log "med" ts =
      match log.meds.find? (fun m => m.timestamp == ts) with
      | none => log
      | some medEntry =>
        { log with
          meds := log.meds.filter fun m => m.timestamp != ts,
          medsDone :=
            match alookup medEntry.medId log.medsDone with
            | none => log.medsDone
            | some lst =>
              if (lst.filter fun idx => idx != medEntry.doseIndex).isEmpty then
                aerase log.medsDone medEntry.medId
              else
                aset log.medsDone medEntry.medId
                  (lst.filter fun idx => idx != medEntry.doseIndex) } := by
  rfl

/-- Medication deletion by timestamp preserves the lockstep invariant and
maintains `medsDone` exactly — removing the deleted entry's dose index
and dropping the key when its list empties — provided timestamps and
(medId, doseIndex) pairs are unique among the `MedLog` entries and the
`medsDone` record has unique keys (JS objects always do). -/
theorem deleteFromLog_med_lockstep (log : DayLog) (ts : Int)
    (hls : lockstep log)
    (hts : (log.meds.map MedLog.timestamp).Nodup)
    (hpair : (log.meds.map (fun e => (e.medId, e.doseIndex))).Nodup)
    (hkeys : (log.medsDone.map Prod.fst).Nodup) :
    lockstep (deleteFromLog log "med" ts) ∧
    (∀ e, log.meds.find? (fun m => m.timestamp == ts) = some e →
      alookup e.medId (deleteFromLog log "med" ts).medsDone =
        (match alookup e.medId log.medsDone with
         | none => none
         | some lst =>
           if (lst.filter (fun idx => idx != e.doseIndex)).isEmpty then none
           else some (lst.filter (fun idx => idx != e.doseIndex)))) := by
  rw [deleteFromLog_med]
  cases hfind : log.meds.find? (fun m => m.timestamp == ts) with
  | none =>
    refine ⟨hls, ?_⟩
    intro e he
    simp at he
  | some e =>
    have hets : e.timestamp = ts := by
      have := List.find?_some hfind
      simpa using this
    have hemem : e ∈ log.meds := List.mem_of_find?_eq_some hfind
    have huniq : ∀ x ∈ log.meds, x.timestamp = ts → x = e := fun x hx hxts =>
      nodup_map_mem_inj _ _ hts x hx e hemem (by rw [hxts, hets])
    have hmeds2 : ∀ x, x ∈ log.meds.filter (fun m => m.timestamp != ts) ↔
        (x ∈ log.meds ∧ x ≠ e) := by
      intro x
      simp only [List.mem_filter, bne_iff_ne]
      constructor
      · rintro ⟨hx, hnts⟩
        exact ⟨hx, fun hxe => hnts (hxe ▸ hets)⟩
      · rintro ⟨hx, hxe⟩
        exact ⟨hx, fun hxts => hxe (huniq x hx hxts)⟩
    have hpre : e.doseIndex ∈ (alookup e.medId log.medsDone).getD [] :=
      (hls e.medId e.doseIndex).mpr ⟨e, hemem, rfl, rfl⟩
    obtain ⟨lst, hlste⟩ : ∃ lst, alookup e.medId log.medsDone = some lst := by
      cases hl0 : alookup e.medId log.medsDone with
      | none => rw [hl0] at hpre; simp at hpre
      | some l0 => exact ⟨l0, rfl⟩
    rw [hlste] at hpre
    simp only [Option.getD_some] at hpre
    have hchar : ∀ i : Nat, (i ∈ lst ∧ i ≠ e.doseIndex) ↔
        (∃ x, (x ∈ log.meds ∧ x ≠ e) ∧ x.medId = e.medId ∧ x.doseIndex = i) := by
      intro i
      constructor
      · rintro ⟨hin, hne⟩
        rcases (hls e.medId i).mp (by rw [hlste]; simpa using hin) with ⟨x, hx, hxp⟩
        refine ⟨x, ⟨hx, ?_⟩, hxp⟩
        intro hxe
        rw [hxe] at hxp
        exact hne hxp.2.symm
      · rintro ⟨x, ⟨hx, hxe⟩, hxid, hxidx⟩
        constructor
        · have := (hls e.medId i).mpr ⟨x, hx, hxid, hxidx⟩
          rw [hlste] at this
          simpa using this
        · intro hie
          apply hxe
          apply nodup_map_mem_inj _ _ hpair x hx e hemem
          rw [hxid, hxidx, hie]
    have hl2mem : ∀ i : Nat, i ∈ lst.filter (fun idx => idx != e.doseIndex) ↔
        (i ∈ lst ∧ i ≠ e.doseIndex) := by
      intro i
      simp [List.mem_filter]
    simp only [hlste]
    constructor
    · -- lockstep of the result
      intro mid i
      simp only
      by_cases hmid : mid = e.medId
      · subst hmid
        by_cases hemp : (lst.filter (fun idx => idx != e.doseIndex)).isEmpty = true
        · rw [if_pos hemp]
          have hnone : alookup e.medId (aerase log.medsDone e.medId) = none :=
            alookup_aerase_self _ _ hkeys
          rw [hnone]
          constructor
          · intro hin
            simp at hin
          · rintro ⟨x, hx, hxp⟩
            have hx2 := (hmeds2 x).mp hx
            have : i ∈ lst.filter (fun idx => idx != e.doseIndex) :=
              (hl2mem i).mpr ((hchar i).mpr ⟨x, hx2, hxp⟩)
            rw [List.isEmpty_iff.mp hemp] at this
            simp at this
        · rw [if_neg hemp, alookup_aset_self]
          simp only [Option.getD_some]
          rw [hl2mem i, hchar i]
          constructor
          · rintro ⟨x, hx, hxp⟩
            exact ⟨x, (hmeds2 x).mpr hx, hxp⟩
          · rintro ⟨x, hx, hxp⟩
            exact ⟨x, (hmeds2 x).mp hx, hxp⟩
      · have hl : alookup mid
            (if (lst.filter (fun idx => idx != e.doseIndex)).isEmpty then
              aerase log.medsDone e.medId
            else aset log.medsDone e.medId (lst.filter (fun idx => idx != e.doseIndex)))
            = alookup mid log.medsDone := by
          split_ifs
          · exact alookup_aerase_ne _ _ _ hmid
          · exact alookup_aset_ne _ _ _ _ hmid
        rw [hl]
        constructor
        · intro hin
          rcases (hls mid i).mp hin with ⟨x, hx, hxp⟩
          refine ⟨x, (hmeds2 x).mpr ⟨hx, ?_⟩, hxp⟩
          intro hxe
          rw [hxe] at hxp
          exact hmid hxp.1.symm
        · rintro ⟨x, hx, hxp⟩
          exact (hls mid i).mpr ⟨x, ((hmeds2 x).mp hx).1, hxp⟩
    · -- exact medsDone bookkeeping for the deleted entry
      intro e2 he2
      cases he2
      by_cases hemp : (lst.filter (fun idx => idx != e.doseIndex)).isEmpty = true
      · rw [if_pos hemp, alookup_aerase_self _ _ hkeys, hlste]
        simp [hemp]
      · rw [if_neg hemp, alookup_aset_self, hlste]
        simp [hemp]

/-- A `DayLog` holding two medication entries that share one timestamp
(two different medications given at the same scheduled time — `giveMed`
timestamps entries at the scheduled dose time, so this arises whenever
two medications share a dose time), in lockstep with `medsDone`. -/
def c5DupTsLog : DayLog :=
  { emptyDayLog with
    meds := [⟨"a", "MedA", 0, "8:00 AM", 100⟩, ⟨"b", "MedB", 0, "8:00 AM", 100⟩],
    medsDone := [("a", [0]), ("b", [0])] }

/-- C5 counterexample: deleting by timestamp removes every `MedLog` entry
with that timestamp but repairs `medsDone` only for the first-found
entry, so a mutation of the live `DayLog` can leave a dose index in
`medsDone` with no corresponding `MedLog` entry. -/
theorem c5_counterexample :
    lockstep c5DupTsLog ∧ ¬ lockstep (deleteFromLog c5DupTsLog "med" 100) := by
  constructor
  · intro medId i
    by_cases ha : medId = "a"
    · subst ha
      simp [c5DupTsLog, alookup, emptyDayLog, eq_comm]
    · by_cases hb : medId = "b"
      · subst hb
        simp [c5DupTsLog, alookup, emptyDayLog, eq_comm]
      · have ha2 : ¬ ("a" = medId) := fun h => ha h.symm
        have hb2 : ¬ ("b" = medId) := fun h => hb h.symm
        simp [c5DupTsLog, alookup, emptyDayLog, ha2, hb2]
  · intro hl
    have h0 : (0 : Nat) ∈ (alookup "b" (deleteFromLog c5DupTsLog "med" 100).medsDone).getD [] := by
      decide
    rcases (hl "b" 0).mp h0 with ⟨e, he, _⟩
    have hmeds : (deleteFromLog c5DupTsLog "med" 100).meds = [] := by decide
    rw [hmeds] at he
    simp at he

/-- C5 (amended): the lockstep invariant between `medsDone` and the
`MedLog` list is preserved by `giveMed` provided the medication id
resolves to a medication of the child and the dose index lies within its
schedule, and by medication deletion provided the log's `MedLog`
timestamps are pairwise distinct and its (medId, doseIndex) pairs are
pairwise distinct; deletion then removes exactly the deleted entry's
dose index from `medsDone[medId]`, dropping the key entirely when the
index list empties.  (Without these side conditions the code breaks the
invariant: see the counterexample, where two entries share a timestamp.) -/
theorem c5_lockstep_amended :
    (∀ (st : AppState) (ci : Fin 2) (medId : String) (doseIndex : Nat)
       (med : Medication) (st2 : AppState),
       lockstep (pairGet st.data.logs ci) →
       (pairGet st.data.children ci).medications.find? (fun m => m.id == medId) = some med →
       doseIndex < med.doseTimes.length →
       giveMed st ci medId doseIndex = .ok st2 →
       lockstep (pairGet st2.data.logs ci)) ∧
    (∀ (log : DayLog) (ts : Int),
       lockstep log →
       (log.meds.map MedLog.timestamp).Nodup →
       (log.meds.map (fun e => (e.medId, e.doseIndex))).Nodup →
       (log.medsDone.map Prod.fst).Nodup →
       lockstep (deleteFromLog log "med" ts) ∧
       (∀ e, log.meds.find? (fun m => m.timestamp == ts) = some e →
         alookup e.medId (deleteFromLog log "med" ts).medsDone =
           (match alookup e.medId log.medsDone with
            | none => none
            | some lst =>
              if (lst.filter (fun idx => idx != e.doseIndex)).isEmpty then none
              else some (lst.filter (fun idx => idx != e.doseIndex))))) :=
  ⟨giveMed_lockstep, deleteFromLog_med_lockstep⟩

theorem lockstep_emptyDayLog : lockstep emptyDayLog := by
  intro medId i
  simp [alookup, emptyDayLog]

/-- Witness state for the `giveMed` half of C5: one medication, nothing
given yet, viewing the live day. -/
def c5GiveState : AppState :=
  AppState.mk
    (TrackerData.mk
      (⟨"A", none, none, none, [⟨"m1", "Med", 1, [(8, 0)]⟩], []⟩,
       ⟨"B", none, none, none, [], []⟩)
      (some 1)
      (emptyDayLog, emptyDayLog)
      [] none)
    1 1 0

/-- The state `giveMed` produces from `c5GiveState`. -/
def c5GiveResult : AppState :=
  AppState.mk
    (TrackerData.mk
      (⟨"A", none, none, none, [⟨"m1", "Med", 1, [(8, 0)]⟩], []⟩,
       ⟨"B", none, none, none, [], []⟩)
      (some 1)
      ({ emptyDayLog with
          meds := [⟨"m1", "Med", 0, "8:00 AM", 28800000⟩],
          medsDone := [("m1", [0])] }, emptyDayLog)
      [] none)
    1 1 0

/-- Witness log for the deletion half of C5. -/
def c5DelLog : DayLog :=
  { emptyDayLog with
    meds := [⟨"m1", "Med", 0, "8:00 AM", 100⟩],
    medsDone := [("m1", [0])] }

theorem c5DelLog_lockstep : lockstep c5DelLog := by
  intro medId i
  by_cases h : medId = "m1"
  · subst h
    simp [c5DelLog, alookup, emptyDayLog, eq_comm]
  · have h2 : ¬ ("m1" = medId) := fun hh => h hh.symm
    simp [c5DelLog, alookup, emptyDayLog, h2]

/-- Witness for C5 (amended): both halves applied at concrete inputs. -/
theorem c5_lockstep_amended_witness :
    lockstep (pairGet c5GiveResult.data.logs 0) ∧
    (lockstep (deleteFromLog c5DelLog "med" 100) ∧
     (∀ e, c5DelLog.meds.find? (fun m => m.timestamp == (100 : Int)) = some e →
       alookup e.medId (deleteFromLog c5DelLog "med" 100).medsDone =
         (match alookup e.medId c5DelLog.medsDone with
          | none => none
          | some lst =>
            if (lst.filter (fun idx => idx != e.doseIndex)).isEmpty then none
            else some (lst.filter (fun idx => idx != e.doseIndex))))) :=
  ⟨c5_lockstep_amended.1 c5GiveState 0 "m1" 0 ⟨"m1", "Med", 1, [(8, 0)]⟩ c5GiveResult
      lockstep_emptyDayLog (by decide) (by decide) (by rfl),
   c5_lockstep_amended.2 c5DelLog 100 c5DelLog_lockstep (by decide) (by decide) (by decide)⟩

/-! ## Claim C8: next-due dose selection -/

theorem medLoopAux_none (done : List Nat) (ds now : Int) :
    ∀ (dts : List (Int × Int)) (i0 : Nat) (b : Bool) (cur : Option NextDue),
    (medLoopAux done ds now dts i0 (b, cur)).2 = none →
      cur = none ∧ ∀ k, k < dts.length → (i0 + k) ∈ done := by
  intro dts
  induction dts with
  | nil =>
    intro i0 b cur h
    exact ⟨h, by intro k hk; simp at hk⟩
  | cons hm rest ih =>
    intro i0 b cur h
    by_cases hd : i0 ∈ done
    · simp only [medLoopAux, if_pos hd] at h
      obtain ⟨h1, h2⟩ := ih (i0 + 1) b cur h
      refine ⟨h1, ?_⟩
      intro k hk
      cases k with
      | zero => simpa using hd
      | succ k2 =>
        have hmem := h2 k2 (by simpa using hk)
        have heq : i0 + (k2 + 1) = i0 + 1 + k2 := by omega
        rw [heq]
        exact hmem
    · exfalso
      simp only [medLoopAux, if_neg hd] at h
      cases cur with
      | none =>
        obtain ⟨h1, _⟩ := ih (i0 + 1) false _ h
        cases h1
      | some c =>
        obtain ⟨h1, _⟩ := ih (i0 + 1) false _ h
        by_cases hlt : doseDiffMins ds now hm < c.diffMins <;> simp [hlt] at h1

theorem medLoopAux_valid (done : List Nat) (ds now : Int) :
    ∀ (dts : List (Int × Int)) (i0 : Nat) (b : Bool) (cur : Option NextDue) (nd : NextDue),
    (medLoopAux done ds now dts i0 (b, cur)).2 = some nd →
      cur = some nd ∨ ∃ k, ∃ hk : k < dts.length, (i0 + k) ∉ done ∧
        nd = ⟨(dts.get ⟨k, hk⟩).1, (dts.get ⟨k, hk⟩).2, i0 + k,
              doseDiffMins ds now (dts.get ⟨k, hk⟩)⟩ := by
  intro dts
  induction dts with
  | nil =>
    intro i0 b cur nd h
    exact Or.inl h
  | cons hm rest ih =>
    intro i0 b cur nd h
    by_cases hd : i0 ∈ done
    · simp only [medLoopAux, if_pos hd] at h
      rcases ih (i0 + 1) b cur nd h with hc | ⟨k, hk, hkd, hnd⟩
      · exact Or.inl hc
      · refine Or.inr ⟨k + 1, by simpa using hk, ?_, ?_⟩
        · have heq : i0 + (k + 1) = i0 + 1 + k := by omega
          rw [heq]; exact hkd
        · have heq : i0 + (k + 1) = i0 + 1 + k := by omega
          simpa [heq] using hnd
    · have hnew : ∀ (acc2c : Option NextDue),
          acc2c = some ⟨hm.1, hm.2, i0, doseDiffMins ds now hm⟩ ∨ acc2c = cur →
          (medLoopAux done ds now rest (i0 + 1) (false, acc2c)).2 = some nd →
          cur = some nd ∨ ∃ k, ∃ hk : k < (hm :: rest).length, (i0 + k) ∉ done ∧
            nd = ⟨((hm :: rest).get ⟨k, hk⟩).1, ((hm :: rest).get ⟨k, hk⟩).2, i0 + k,
                  doseDiffMins ds now ((hm :: rest).get ⟨k, hk⟩)⟩ := by
        intro acc2c hcases h2
        rcases ih (i0 + 1) false acc2c nd h2 with hc | ⟨k, hk, hkd, hnd⟩
        · rcases hcases with h3 | h3
          · rw [h3] at hc
            refine Or.inr ⟨0, by simp, by simpa using hd, ?_⟩
            simpa using (Option.some.inj hc).symm
          · rw [h3] at hc
            exact Or.inl hc
        · refine Or.inr ⟨k + 1, by simpa using hk, ?_, ?_⟩
          · have heq : i0 + (k + 1) = i0 + 1 + k := by omega
            rw [heq]; exact hkd
          · have heq : i0 + (k + 1) = i0 + 1 + k := by omega
            simpa [heq] using hnd
      cases cur with
      | none =>
        simp only [medLoopAux, if_neg hd] at h
        exact hnew _ (Or.inl rfl) h
      | some c =>
        simp only [medLoopAux, if_neg hd] at h
        by_cases hlt : doseDiffMins ds now hm < c.diffMins
        · rw [if_pos hlt] at h
          exact hnew _ (Or.inl rfl) h
        · rw [if_neg hlt] at h
          exact hnew _ (Or.inr rfl) h

theorem medLoopAux_min (done : List Nat) (ds now : Int) :
    ∀ (dts : List (Int × Int)) (i0 : Nat) (b : Bool) (cur : Option NextDue) (nd : NextDue),
    (medLoopAux done ds now dts i0 (b, cur)).2 = some nd →
      (∀ c, cur = some c → nd.diffMins ≤ c.diffMins) ∧
      (∀ k, ∀ hk : k < dts.length, (i0 + k) ∉ done →
        nd.diffMins ≤ doseDiffMins ds now (dts.get ⟨k, hk⟩)) := by
  intro dts
  induction dts with
  | nil =>
    intro i0 b cur nd h
    refine ⟨?_, ?_⟩
    · intro c hc
      rw [hc] at h
      cases h
      rfl
    · intro k hk
      simp at hk
  | cons hm rest ih =>
    intro i0 b cur nd h
    by_cases hd : i0 ∈ done
    · simp only [medLoopAux, if_pos hd] at h
      obtain ⟨hcur, hrest⟩ := ih (i0 + 1) b cur nd h
      refine ⟨hcur, ?_⟩
      intro k hk hkd
      cases k with
      | zero => exact absurd hd (by simpa using hkd)
      | succ k2 =>
        have heq : i0 + (k2 + 1) = i0 + 1 + k2 := by omega
        rw [heq] at hkd
        simpa using hrest k2 (by simpa using hk) hkd
    · cases cur with
      | none =>
        simp only [medLoopAux, if_neg hd] at h
        obtain ⟨hcur, hrest⟩ := ih (i0 + 1) false _ nd h
        have hle : nd.diffMins ≤ doseDiffMins ds now hm := by
          simpa using hcur ⟨hm.1, hm.2, i0, doseDiffMins ds now hm⟩ rfl
        refine ⟨(by intro c hc; cases hc), ?_⟩
        intro k hk hkd
        cases k with
        | zero => simpa using hle
        | succ k2 =>
          have heq : i0 + (k2 + 1) = i0 + 1 + k2 := by omega
          rw [heq] at hkd
          simpa using hrest k2 (by simpa using hk) hkd
      | some c =>
        simp only [medLoopAux, if_neg hd] at h
        by_cases hlt : doseDiffMins ds now hm < c.diffMins
        · rw [if_pos hlt] at h
          obtain ⟨hcur, hrest⟩ := ih (i0 + 1) false _ nd h
          have hle : nd.diffMins ≤ doseDiffMins ds now hm := by
            simpa using hcur ⟨hm.1, hm.2, i0, doseDiffMins ds now hm⟩ rfl
          refine ⟨?_, ?_⟩
          · intro c2 hc2
            cases hc2
            exact le_trans hle (le_of_lt hlt)
          · intro k hk hkd
            cases k with
            | zero => simpa using hle
            | succ k2 =>
              have heq : i0 + (k2 + 1) = i0 + 1 + k2 := by omega
              rw [heq] at hkd
              simpa using hrest k2 (by simpa using hk) hkd
        · rw [if_neg hlt] at h
          obtain ⟨hcur, hrest⟩ := ih (i0 + 1) false _ nd h
          have hle : nd.diffMins ≤ c.diffMins := hcur c rfl
          refine ⟨?_, ?_⟩
          · intro c2 hc2
            cases hc2
            exact hle
          · intro k hk hkd
            cases k with
            | zero =>
              have : c.diffMins ≤ doseDiffMins ds now hm := le_of_not_lt hlt
              simpa using le_trans hle this
            | succ k2 =>
              have heq : i0 + (k2 + 1) = i0 + 1 + k2 := by omega
              rw [heq] at hkd
              simpa using hrest k2 (by simpa using hk) hkd

theorem medLoopAux_first (done : List Nat) (ds now : Int) :
    ∀ (dts : List (Int × Int)) (i0 : Nat) (b : Bool) (cur : Option NextDue) (nd : NextDue),
    (medLoopAux done ds now dts i0 (b, cur)).2 = some nd →
    (∀ c, cur = some c → c.index < i0) →
      (∀ c, cur = some c → nd.diffMins < c.diffMins ∨ nd = c) ∧
      (∀ k, ∀ hk : k < dts.length, (i0 + k) ∉ done →
        doseDiffMins ds now (dts.get ⟨k, hk⟩) ≤ nd.diffMins → nd.index ≤ i0 + k) := by
  intro dts
  induction dts with
  | nil =>
    intro i0 b cur nd h hc
    refine ⟨?_, ?_⟩
    · intro c hcc
      rw [hcc] at h
      cases h
      exact Or.inr rfl
    · intro k hk
      simp at hk
  | cons hm rest ih =>
    intro i0 b cur nd h hc
    by_cases hd : i0 ∈ done
    · simp only [medLoopAux, if_pos hd] at h
      obtain ⟨hcur, hrest⟩ := ih (i0 + 1) b cur nd h
        (fun c hcc => lt_trans (hc c hcc) (by omega))
      refine ⟨hcur, ?_⟩
      intro k hk hkd hkle
      cases k with
      | zero => exact absurd hd (by simpa using hkd)
      | succ k2 =>
        have heq : i0 + (k2 + 1) = i0 + 1 + k2 := by omega
        rw [heq] at hkd ⊢
        exact hrest k2 (by simpa using hk) hkd (by simpa using hkle)
    · cases cur with
      | none =>
        simp only [medLoopAux, if_neg hd] at h
        obtain ⟨hcur, hrest⟩ := ih (i0 + 1) false _ nd h
          (by intro c hcc; cases hcc; simp)
        refine ⟨(by intro c hcc; cases hcc), ?_⟩
        intro k hk hkd hkle
        cases k with
        | zero =>
          rcases hcur ⟨hm.1, hm.2, i0, doseDiffMins ds now hm⟩ rfl with hlt2 | heq2
          · exact absurd hkle (by simp only [List.get]; exact not_le.mpr (by simpa using hlt2))
          · rw [heq2]
            simp
        | succ k2 =>
          have heq : i0 + (k2 + 1) = i0 + 1 + k2 := by omega
          rw [heq] at hkd ⊢
          exact hrest k2 (by simpa using hk) hkd (by simpa using hkle)
      | some c =>
        simp only [medLoopAux, if_neg hd] at h
        by_cases hlt : doseDiffMins ds now hm < c.diffMins
        · rw [if_pos hlt] at h
          obtain ⟨hcur, hrest⟩ := ih (i0 + 1) false _ nd h
            (by intro c2 hcc; cases hcc; simp)
          refine ⟨?_, ?_⟩
          · intro c2 hcc
            cases hcc
            rcases hcur ⟨hm.1, hm.2, i0, doseDiffMins ds now hm⟩ rfl with hlt2 | heq2
            · exact Or.inl (lt_trans (by simpa using hlt2) hlt)
            · exact Or.inl (by rw [heq2]; simpa using hlt)
          · intro k hk hkd hkle
            cases k with
            | zero =>
              rcases hcur ⟨hm.1, hm.2, i0, doseDiffMins ds now hm⟩ rfl with hlt2 | heq2
              · exact absurd hkle (by simp only [List.get]; exact not_le.mpr (by simpa using hlt2))
              · rw [heq2]
                simp
            | succ k2 =>
              have heq : i0 + (k2 + 1) = i0 + 1 + k2 := by omega
              rw [heq] at hkd ⊢
              exact hrest k2 (by simpa using hk) hkd (by simpa using hkle)
        · rw [if_neg hlt] at h
          obtain ⟨hcur, hrest⟩ := ih (i0 + 1) false _ nd h
            (fun c2 hcc => lt_trans (hc c2 hcc) (by omega))
          refine ⟨hcur, ?_⟩
          intro k hk hkd hkle
          cases k with
          | zero =>
            rcases hcur c rfl with hlt2 | heq2
            · have hc2 : c.diffMins ≤ doseDiffMins ds now hm := le_of_not_lt hlt
              have : nd.diffMins < doseDiffMins ds now hm := lt_of_lt_of_le hlt2 hc2
              exact absurd hkle (by simp only [List.get]; exact not_le.mpr (by simpa using this))
            · rw [heq2]
              have := hc c rfl
              omega
          | succ k2 =>
            have heq : i0 + (k2 + 1) = i0 + 1 + k2 := by omega
            rw [heq] at hkd ⊢
            exact hrest k2 (by simpa using hk) hkd (by simpa using hkle)

/-- C8: when at least one dose is not done, `getMedUrgency`'s scan
selects the not-done entry with the smallest signed minute difference
between its time-today and now, breaking exact ties by the lowest
original index (the loop only replaces the candidate on a strictly
smaller difference). -/
theorem c8_next_due_selection (doseTimes : List (Int × Int)) (done : List Nat)
    (ds now : Int) (h : ∃ i, i < doseTimes.length ∧ i ∉ done) :
    ∃ nd, (medLoop doseTimes done ds now).2 = some nd ∧
      ∃ hn : nd.index < doseTimes.length,
        nd.index ∉ done ∧
        (nd.hour, nd.min) = doseTimes.get ⟨nd.index, hn⟩ ∧
        nd.diffMins = doseDiffMins ds now (doseTimes.get ⟨nd.index, hn⟩) ∧
        (∀ j, ∀ hj : j < doseTimes.length, j ∉ done →
          nd.diffMins ≤ doseDiffMins ds now (doseTimes.get ⟨j, hj⟩)) ∧
        (∀ j, ∀ hj : j < doseTimes.length, j ∉ done →
          doseDiffMins ds now (doseTimes.get ⟨j, hj⟩) = nd.diffMins → nd.index ≤ j) := by
  cases hres : (medLoop doseTimes done ds now).2 with
  | none =>
    exfalso
    obtain ⟨i, hi, hid⟩ := h
    obtain ⟨_, hall⟩ := medLoopAux_none done ds now doseTimes 0 true none hres
    exact hid (by simpa using hall i hi)
  | some nd =>
    refine ⟨nd, rfl, ?_⟩
    rcases medLoopAux_valid done ds now doseTimes 0 true none nd hres with hc | ⟨k, hk, hkd, hnd⟩
    · cases hc
    obtain ⟨_, hmin⟩ := medLoopAux_min done ds now doseTimes 0 true none nd hres
    obtain ⟨_, hfirst⟩ := medLoopAux_first done ds now doseTimes 0 true none nd hres
      (by intro c hcc; cases hcc)
    subst hnd
    simp only [Nat.zero_add] at hkd hmin hfirst ⊢
    refine ⟨hk, hkd, trivial, trivial, ?_, ?_⟩
    · intro j hj hjd
      exact hmin j hj hjd
    · intro j hj hjd heq
      exact hfirst j hj hjd (le_of_eq heq)

/-- Witness for C8: two doses at 8:00 and 14:00, none done, now = noon;
the 14:00 dose (difference +120 min) beats the 8:00 dose (−240 min is
smaller — most overdue wins). -/
theorem c8_next_due_selection_witness :
    (∃ i, i < ([((8 : Int), (0 : Int)), (14, 0)]).length ∧ i ∉ ([] : List Nat)) ∧
    (∃ nd, (medLoop [((8 : Int), (0 : Int)), (14, 0)] [] 0 43200000).2 = some nd ∧
      ∃ hn : nd.index < ([((8 : Int), (0 : Int)), (14, 0)]).length,
        nd.index ∉ ([] : List Nat) ∧
        (nd.hour, nd.min) = ([((8 : Int), (0 : Int)), (14, 0)]).get ⟨nd.index, hn⟩ ∧
        nd.diffMins = doseDiffMins 0 43200000 (([((8 : Int), (0 : Int)), (14, 0)]).get ⟨nd.index, hn⟩) ∧
        (∀ j, ∀ hj : j < ([((8 : Int), (0 : Int)), (14, 0)]).length, j ∉ ([] : List Nat) →
          nd.diffMins ≤ doseDiffMins 0 43200000 (([((8 : Int), (0 : Int)), (14, 0)]).get ⟨j, hj⟩)) ∧
        (∀ j, ∀ hj : j < ([((8 : Int), (0 : Int)), (14, 0)]).length, j ∉ ([] : List Nat) →
          doseDiffMins 0 43200000 (([((8 : Int), (0 : Int)), (14, 0)]).get ⟨j, hj⟩) = nd.diffMins →
          nd.index ≤ j)) :=
  ⟨⟨0, by decide, by decide⟩,
   c8_next_due_selection [((8 : Int), (0 : Int)), (14, 0)] [] 0 43200000
     ⟨0, by decide, by decide⟩⟩

/-! ## Claim C3: urgency classification thresholds -/

theorem medLoopAux_skip_all (done : List Nat) (ds now : Int) :
    ∀ (dts : List (Int × Int)) (i0 : Nat) (acc : Bool × Option NextDue),
    (∀ k, k < dts.length → (i0 + k) ∈ done) →
    medLoopAux done ds now dts i0 acc = acc := by
  intro dts
  induction dts with
  | nil => intro i0 acc _; rfl
  | cons hm rest ih =>
    intro i0 acc hall
    have hd : i0 ∈ done := by simpa using hall 0 (by simp)
    simp only [medLoopAux, if_pos hd]
    apply ih
    intro k hk
    have := hall (k + 1) (by simpa using hk)
    have heq : i0 + (k + 1) = i0 + 1 + k := by omega
    rw [heq] at this
    exact this

theorem medLoopAux_fst_mono (done : List Nat) (ds now : Int) :
    ∀ (dts : List (Int × Int)) (i0 : Nat) (acc : Bool × Option NextDue),
    (medLoopAux done ds now dts i0 acc).1 = true → acc.1 = true := by
  intro dts
  induction dts with
  | nil => intro i0 acc h; exact h
  | cons hm rest ih =>
    intro i0 acc h
    by_cases hd : i0 ∈ done
    · simp only [medLoopAux, if_pos hd] at h
      exact ih (i0 + 1) acc h
    · exfalso
      simp only [medLoopAux, if_neg hd] at h
      cases hacc : acc.2 with
      | none =>
        rw [hacc] at h
        have := ih (i0 + 1) _ h
        simp at this
      | some c =>
        rw [hacc] at h
        have := ih (i0 + 1) _ h
        simp at this

theorem medLoopAux_fst_true_snd (done : List Nat) (ds now : Int) :
    ∀ (dts : List (Int × Int)) (i0 : Nat) (acc : Bool × Option NextDue),
    (medLoopAux done ds now dts i0 acc).1 = true →
    (medLoopAux done ds now dts i0 acc).2 = acc.2 := by
  intro dts
  induction dts with
  | nil => intro i0 acc _; rfl
  | cons hm rest ih =>
    intro i0 acc h
    by_cases hd : i0 ∈ done
    · simp only [medLoopAux, if_pos hd] at h ⊢
      exact ih (i0 + 1) acc h
    · exfalso
      simp only [medLoopAux, if_neg hd] at h
      cases hacc : acc.2 with
      | none =>
        rw [hacc] at h
        have := medLoopAux_fst_mono done ds now rest (i0 + 1) _ h
        simp at this
      | some c =>
        rw [hacc] at h
        have := medLoopAux_fst_mono done ds now rest (i0 + 1) _ h
        simp at this

theorem natRepr_no_h : ∀ n : Nat, n < 100 → 'h' ∉ (Nat.repr n).data := by
  decide

theorem jsNumStr_no_h (i : Int) (h0 : 0 ≤ i) (h1 : i < 100) :
    'h' ∉ (jsNumStr i).data := by
  rw [jsNumStr, if_neg (by omega)]
  apply natRepr_no_h
  omega

theorem padStart2_no_h (s : String) (h : 'h' ∉ s.data) :
    'h' ∉ (padStart2 s).data := by
  rw [padStart2]
  split_ifs
  · decide
  · simpa [String.data_append] using h
  · exact h

theorem jsRound_bounds (q : ℚ) (h0 : 30 < q) (h1 : q < 60) :
    30 ≤ jsRound q ∧ jsRound q ≤ 60 := by
  unfold jsRound
  constructor
  · apply Int.le_floor.mpr
    push_cast
    linarith
  · have hlt : (⌊q + 1 / 2⌋ : Int) < 61 := by
      apply Int.floor_lt.mpr
      push_cast
      linarith
  
    omega

theorem doseTimeStr_no_h (hr mn : Int) (hh0 : 0 ≤ hr) (hh1 : hr < 24)
    (hm0 : 0 ≤ mn) (hm1 : mn < 60) :
    'h' ∉ (jsNumStr (if hr % 12 = 0 then (12 : Int) else hr % 12) ++
      (if mn > 0 then ":" ++ padStart2 (jsNumStr mn) else "") ++
      (if hr ≥ 12 then "pm" else "am")).data := by
  have hmod0 : 0 ≤ hr % 12 := Int.emod_nonneg hr (by norm_num)
  have hmod1 : hr % 12 < 12 := Int.emod_lt_of_pos hr (by norm_num)
  intro hmem
  rw [String.data_append, String.data_append] at hmem
  rcases List.mem_append.mp hmem with hmem1 | hmem3
  · rcases List.mem_append.mp hmem1 with hmem1 | hmem2
    · revert hmem1
      split_ifs
      · exact jsNumStr_no_h 12 (by norm_num) (by norm_num)
      · exact jsNumStr_no_h _ hmod0 (by omega)
    · revert hmem2
      split_ifs
      · rw [String.data_append]
        intro hmem2
        rcases List.mem_append.mp hmem2 with hc | hp
        · simp at hc
        · exact padStart2_no_h _ (jsNumStr_no_h mn hm0 (by omega)) hp
      · simp
  · revert hmem3
    split_ifs <;> decide

theorem late_text_infix (a t mark : String)
    (hmark : ∃ u v : List Char, mark.data = u ++ "late".data ++ v) :
    ∃ s1 s2 : List Char, (a ++ mark ++ t ++ ")").data = s1 ++ "late".data ++ s2 := by
  obtain ⟨u, v, hm⟩ := hmark
  refine ⟨a.data ++ u, v ++ t.data ++ ")".data, ?_⟩
  simp only [String.data_append, hm]
  simp [List.append_assoc]

theorem no_h_text (a t mark : String) (ha : 'h' ∉ a.data) (hm : 'h' ∉ mark.data)
    (ht : 'h' ∉ t.data) : 'h' ∉ (a ++ mark ++ t ++ ")").data := by
  simp only [String.data_append]
  intro hmem
  rcases List.mem_append.mp hmem with h1 | h2
  · rcases List.mem_append.mp h1 with h3 | h4
    · rcases List.mem_append.mp h3 with h5 | h6
      · exact ha h5
      · exact hm h6
    · exact ht h4
  · simp at h2

theorem h_mem_text (a t mark : String) (hm : 'h' ∈ mark.data) :
    'h' ∈ (a ++ mark ++ t ++ ")").data := by
  simp only [String.data_append]
  exact List.mem_append_left _ (List.mem_append_left _ (List.mem_append_right _ hm))


theorem h_mem_text_left (a t mark : String) (hm : 'h' ∈ a.data) :
    'h' ∈ (a ++ mark ++ t ++ ")").data := by
  simp only [String.data_append]
  exact List.mem_append_left _ (List.mem_append_left _ (List.mem_append_left _ hm))

/-- Unfolding of `getMedUrgency` when the scan produced a next dose. -/
theorem getMedUrgency_eq_classify (med : Medication) (log : DayLog) (ds now : Int)
    (nd0 : NextDue)
    (hml : medLoop med.doseTimes ((alookup med.id log.medsDone).getD []) ds now
      = (false, some nd0)) :
    getMedUrgency med log ds now =
      (if nd0.diffMins < -30 then
        { status := "urgent",
          text :=
            if |nd0.diffMins| < 60 then
              jsNumStr (jsRound |nd0.diffMins|) ++ "m late (" ++
                (jsNumStr (if nd0.hour % 12 = 0 then (12 : Int) else nd0.hour % 12) ++
                  (if nd0.min > 0 then ":" ++ padStart2 (jsNumStr nd0.min) else "") ++
                  (if nd0.hour ≥ 12 then "pm" else "am")) ++ ")"
            else
              if jsRound (|nd0.diffMins| - 60 * (⌊|nd0.diffMins| / 60⌋ : ℚ)) > 0 then
                jsNumStr ⌊|nd0.diffMins| / 60⌋ ++ "h " ++
                  jsNumStr (jsRound (|nd0.diffMins| - 60 * (⌊|nd0.diffMins| / 60⌋ : ℚ))) ++
                  "m late (" ++
                  (jsNumStr (if nd0.hour % 12 = 0 then (12 : Int) else nd0.hour % 12) ++
                    (if nd0.min > 0 then ":" ++ padStart2 (jsNumStr nd0.min) else "") ++
                    (if nd0.hour ≥ 12 then "pm" else "am")) ++ ")"
              else
                jsNumStr ⌊|nd0.diffMins| / 60⌋ ++ "h late (" ++
                  (jsNumStr (if nd0.hour % 12 = 0 then (12 : Int) else nd0.hour % 12) ++
                    (if nd0.min > 0 then ":" ++ padStart2 (jsNumStr nd0.min) else "") ++
                    (if nd0.hour ≥ 12 then "pm" else "am")) ++ ")",
          nextDose := some nd0 }
      else if nd0.diffMins < 30 then ⟨"urgent", "Now", some nd0⟩
      else if nd0.diffMins < 120 then
        ⟨"soon", jsNumStr (jsRound nd0.diffMins) ++ "m (" ++
          (jsNumStr (if nd0.hour % 12 = 0 then (12 : Int) else nd0.hour % 12) ++
            (if nd0.min > 0 then ":" ++ padStart2 (jsNumStr nd0.min) else "") ++
            (if nd0.hour ≥ 12 then "pm" else "am")) ++ ")", some nd0⟩
      else
        ⟨"normal", jsNumStr ⌊nd0.diffMins / 60⌋ ++ "h (" ++
          (jsNumStr (if nd0.hour % 12 = 0 then (12 : Int) else nd0.hour % 12) ++
            (if nd0.min > 0 then ":" ++ padStart2 (jsNumStr nd0.min) else "") ++
            (if nd0.hour ≥ 12 then "pm" else "am")) ++ ")", some nd0⟩) := by
  simp only [getMedUrgency]
  rw [hml]

/-- Unfolding of `getMedUrgency` when every dose is done. -/
theorem getMedUrgency_eq_done (med : Medication) (log : DayLog) (ds now : Int)
    (o : Option NextDue)
    (hml : medLoop med.doseTimes ((alookup med.id log.medsDone).getD []) ds now
      = (true, o)) :
    getMedUrgency med log ds now = ⟨"done", "Done", none⟩ := by
  simp only [getMedUrgency]
  rw [hml]

/-- Unfolding of `getMedUrgency` on the (unreachable) empty-candidate
branch. -/
theorem getMedUrgency_eq_junk (med : Medication) (log : DayLog) (ds now : Int)
    (hml : medLoop med.doseTimes ((alookup med.id log.medsDone).getD []) ds now
      = (false, none)) :
    getMedUrgency med log ds now = ⟨"", "", none⟩ := by
  simp only [getMedUrgency]
  rw [hml]

/-- C3: classification of `getMedUrgency` for a medication with
canonical wall-clock dose times.  If every dose index is done the status
is `done`; otherwise a next dose is selected and, writing `d` for its
signed minute difference: `d < -30` gives `urgent` with a "late" text
whose hours component (an `'h'` in the text) appears exactly when at
least 60 minutes overdue; `-30 ≤ d < 30` gives `urgent` with text "Now";
`30 ≤ d < 120` gives `soon`; `d ≥ 120` gives `normal`. -/
theorem c3_urgency_classification (med : Medication) (log : DayLog) (ds now : Int)
    (hwf : ∀ p ∈ med.doseTimes, 0 ≤ p.1 ∧ p.1 < 24 ∧ 0 ≤ p.2 ∧ p.2 < 60) :
    ((∀ i, i < med.doseTimes.length → i ∈ (alookup med.id log.medsDone).getD []) →
      (getMedUrgency med log ds now).status = "done") ∧
    ((∃ i, i < med.doseTimes.length ∧ i ∉ (alookup med.id log.medsDone).getD []) →
      ∃ nd, (getMedUrgency med log ds now).nextDose = some nd) ∧
    (∀ nd, (getMedUrgency med log ds now).nextDose = some nd →
      (nd.diffMins < -30 →
        (getMedUrgency med log ds now).status = "urgent" ∧
        (∃ s1 s2 : List Char,
          (getMedUrgency med log ds now).text.data = s1 ++ "late".data ++ s2) ∧
        ('h' ∈ (getMedUrgency med log ds now).text.data ↔ nd.diffMins ≤ -60)) ∧
      (-30 ≤ nd.diffMins → nd.diffMins < 30 →
        (getMedUrgency med log ds now).status = "urgent" ∧
        (getMedUrgency med log ds now).text = "Now") ∧
      (30 ≤ nd.diffMins → nd.diffMins < 120 →
        (getMedUrgency med log ds now).status = "soon") ∧
      (120 ≤ nd.diffMins → (getMedUrgency med log ds now).status = "normal")) := by
  refine ⟨?_, ?_, ?_⟩
  · intro hall
    have hskip : medLoop med.doseTimes ((alookup med.id log.medsDone).getD []) ds now
        = (true, none) := by
      unfold medLoop
      apply medLoopAux_skip_all
      intro k hk
      simpa using hall k hk
    rw [getMedUrgency_eq_done med log ds now none hskip]
  · intro hex
    cases hml : medLoop med.doseTimes ((alookup med.id log.medsDone).getD []) ds now with
    | mk b o =>
      cases o with
      | none =>
        exfalso
        obtain ⟨i, hi, hid⟩ := hex
        have hnone : (medLoop med.doseTimes ((alookup med.id log.medsDone).getD []) ds now).2
            = none := by rw [hml]
        obtain ⟨_, hall2⟩ := medLoopAux_none _ _ _ med.doseTimes 0 true none hnone
        exact hid (by simpa using hall2 i hi)
      | some nd =>
        cases b with
        | true =>
          exfalso
          have h2 := medLoopAux_fst_true_snd ((alookup med.id log.medsDone).getD []) ds now
            med.doseTimes 0 (true, none)
            (by rw [show medLoopAux ((alookup med.id log.medsDone).getD []) ds now
                med.doseTimes 0 (true, none) = (true, some nd) from hml])
          rw [show medLoopAux ((alookup med.id log.medsDone).getD []) ds now
              med.doseTimes 0 (true, none) = (true, some nd) from hml] at h2
          simp at h2
        | false =>
          refine ⟨nd, ?_⟩
          rw [getMedUrgency_eq_classify med log ds now nd hml]
          split_ifs <;> rfl
  · intro nd hnd
    cases hml : medLoop med.doseTimes ((alookup med.id log.medsDone).getD []) ds now with
    | mk b o =>
      cases o with
      | none =>
        cases b with
        | true =>
          rw [getMedUrgency_eq_done med log ds now none hml] at hnd
          simp at hnd
        | false =>
          rw [getMedUrgency_eq_junk med log ds now hml] at hnd
          simp at hnd
      | some nd0 =>
        cases b with
        | true =>
          exfalso
          have h2 := medLoopAux_fst_true_snd ((alookup med.id log.medsDone).getD []) ds now
            med.doseTimes 0 (true, none)
            (by rw [show medLoopAux ((alookup med.id log.medsDone).getD []) ds now
                med.doseTimes 0 (true, none) = (true, some nd0) from hml])
          rw [show medLoopAux ((alookup med.id log.medsDone).getD []) ds now
              med.doseTimes 0 (true, none) = (true, some nd0) from hml] at h2
          simp at h2
        | false =>
          rw [getMedUrgency_eq_classify med log ds now nd0 hml] at hnd
          have hnd0 : nd0 = nd := by
            revert hnd
            split_ifs <;> intro hnd <;> simpa using hnd
          subst hnd0
          have hvalid := medLoopAux_valid _ _ _ med.doseTimes 0 true none nd0
            (by rw [show medLoopAux ((alookup med.id log.medsDone).getD []) ds now
                med.doseTimes 0 (true, none) = (false, some nd0) from hml])
          rcases hvalid with hc | ⟨k, hk, _, hndv⟩
          · cases hc
          have hmemk := List.get_mem med.doseTimes k hk
          obtain ⟨hh0, hh1, hm0, hm1⟩ := hwf _ hmemk
          have hhour0 : 0 ≤ nd0.hour := by rw [hndv]; exact hh0
          have hhour1 : nd0.hour < 24 := by rw [hndv]; exact hh1
          have hmin0 : 0 ≤ nd0.min := by rw [hndv]; exact hm0
          have hmin1 : nd0.min < 60 := by rw [hndv]; exact hm1
          rw [getMedUrgency_eq_classify med log ds now nd0 hml]
          refine ⟨?_, ?_, ?_, ?_⟩
          · intro hd30
            rw [if_pos hd30]
            have habsneg : |nd0.diffMins| = -nd0.diffMins :=
              abs_of_neg (by linarith)
            by_cases habs : |nd0.diffMins| < 60
            · rw [if_pos habs]
              have hq0 : 30 < |nd0.diffMins| := by rw [habsneg]; linarith
              obtain ⟨hr0, hr1⟩ := jsRound_bounds _ hq0 habs
              refine ⟨rfl, ?_, ?_⟩
              · exact late_text_infix _ _ "m late ("
                  ⟨"m ".data, " (".data, by decide⟩
              · have hnoth : 'h' ∉ (jsNumStr (jsRound |nd0.diffMins|) ++ "m late (" ++
                    (jsNumStr (if nd0.hour % 12 = 0 then (12 : Int) else nd0.hour % 12) ++
                      (if nd0.min > 0 then ":" ++ padStart2 (jsNumStr nd0.min) else "") ++
                      (if nd0.hour ≥ 12 then "pm" else "am")) ++ ")").data := by
                  apply no_h_text
                  · exact jsNumStr_no_h _ (by omega) (by omega)
                  · decide
                  · exact doseTimeStr_no_h nd0.hour nd0.min hhour0 hhour1 hmin0 hmin1
                constructor
                · intro hmem
                  exact absurd hmem hnoth
                · intro hle
                  exfalso
                  rw [habsneg] at habs
                  linarith
            · rw [if_neg habs]
              have hle60 : nd0.diffMins ≤ -60 := by
                rw [habsneg] at habs
                push_neg at habs
                linarith
              by_cases hmins : jsRound (|nd0.diffMins| - 60 * (⌊|nd0.diffMins| / 60⌋ : ℚ)) > 0
              · rw [if_pos hmins]
                refine ⟨rfl, ?_, ?_⟩
                · exact late_text_infix _ _ "m late ("
                    ⟨"m ".data, " (".data, by decide⟩
                · refine iff_of_true ?_ hle60
                  apply h_mem_text_left
                  rw [String.data_append, String.data_append]
                  exact List.mem_append_left _ (List.mem_append_right _ (by decide))
              · rw [if_neg hmins]
                refine ⟨rfl, ?_, ?_⟩
                · exact late_text_infix _ _ "h late ("
                    ⟨"h ".data, " (".data, by decide⟩
                · exact iff_of_true (h_mem_text _ _ "h late (" (by decide)) hle60
          · intro hge30 hlt30
            rw [if_neg (by linarith), if_pos hlt30]
            exact ⟨rfl, rfl⟩
          · intro hge30 hlt120
            rw [if_neg (by linarith), if_neg (by linarith), if_pos hlt120]
          · intro hge120
            rw [if_neg (by linarith), if_neg (by linarith), if_neg (by linarith)]

/-- Witness medication for C3: doses at 08:00 and 14:00. -/
def c3Med : Medication := ⟨"m1", "Med", 2, [(8, 0), (14, 0)]⟩

/-- Witness for C3, at noon with nothing done. -/
theorem c3_urgency_classification_witness :
    (∀ p ∈ c3Med.doseTimes, 0 ≤ p.1 ∧ p.1 < 24 ∧ 0 ≤ p.2 ∧ p.2 < 60) ∧
    (((∀ i, i < c3Med.doseTimes.length →
        i ∈ (alookup c3Med.id emptyDayLog.medsDone).getD []) →
      (getMedUrgency c3Med emptyDayLog 0 43200000).status = "done") ∧
    ((∃ i, i < c3Med.doseTimes.length ∧
        i ∉ (alookup c3Med.id emptyDayLog.medsDone).getD []) →
      ∃ nd, (getMedUrgency c3Med emptyDayLog 0 43200000).nextDose = some nd) ∧
    (∀ nd, (getMedUrgency c3Med emptyDayLog 0 43200000).nextDose = some nd →
      (nd.diffMins < -30 →
        (getMedUrgency c3Med emptyDayLog 0 43200000).status = "urgent" ∧
        (∃ s1 s2 : List Char,
          (getMedUrgency c3Med emptyDayLog 0 43200000).text.data
            = s1 ++ "late".data ++ s2) ∧
        ('h' ∈ (getMedUrgency c3Med emptyDayLog 0 43200000).text.data ↔
          nd.diffMins ≤ -60)) ∧
      (-30 ≤ nd.diffMins → nd.diffMins < 30 →
        (getMedUrgency c3Med emptyDayLog 0 43200000).status = "urgent" ∧
        (getMedUrgency c3Med emptyDayLog 0 43200000).text = "Now") ∧
      (30 ≤ nd.diffMins → nd.diffMins < 120 →
        (getMedUrgency c3Med emptyDayLog 0 43200000).status = "soon") ∧
      (120 ≤ nd.diffMins →
        (getMedUrgency c3Med emptyDayLog 0 43200000).status = "normal"))) :=
  ⟨by decide, c3_urgency_classification c3Med emptyDayLog 0 43200000 (by decide)⟩

/-! ## JSON-level model for ingestion (`applyParsedData`, realtime handler)

Incoming remote documents have unknown shape, so this part of the
embedding works on an untyped model of JavaScript values.  Numbers are
exact rationals; `NaN` produced by arithmetic on non-numbers is modelled
by `Option ℚ` with `none` (JS comparisons against `NaN` are false, as is
`olt`/`oleq`/`ogt` on `none`). -/

/-- A JavaScript value.  `jnan` is the number `NaN` (falsy, not strictly
equal to itself); all other numbers are `jnum`. -/
inductive JVal where
  | jnull
  | jundefined
  | jbool (b : Bool)
  | jnum (q : ℚ)
  | jnan
  | jstr (s : String)
  | jarr (xs : List JVal)
  | jobj (fs : List (String × JVal))

/-- JS truthiness. -/
def truthy : JVal → Bool
  | .jnull => false
  | .jundefined => false
  | .jbool b => b
  | .jnum q => !(decide (q = 0))
  | .jnan => false
  | .jstr s => !(decide (s = ""))
  | .jarr _ => true
  | .jobj _ => true

/-- Property read on a non-null value: object fields, `length` of arrays
and strings; anything else yields `undefined` (prototype lookups are not
consulted by the source). -/
def propOf : JVal → String → JVal
  | .jobj fs, k => (alookup k fs).getD .jundefined
  | .jarr xs, k => if k = "length" then .jnum xs.length else .jundefined
  | .jstr s, k => if k = "length" then .jnum s.length else .jundefined
  | _, _ => .jundefined

/-- Plain property access `v.k`: throws on `null`/`undefined`. -/
def propOfE (v : JVal) (k : String) : Except String JVal :=
  match v with
  | .jnull => .error ("TypeError: Cannot read properties of null (reading " ++ k ++ ")")
  | .jundefined => .error ("TypeError: Cannot read properties of undefined (reading " ++ k ++ ")")
  | v2 => .ok (propOf v2 k)

/-- Optional chaining `v?.k`. -/
def optChain (v : JVal) (k : String) : JVal :=
  match v with
  | .jnull => .jundefined
  | .jundefined => .jundefined
  | v2 => propOf v2 k

/-- Plain index access `v[i]`: throws on `null`/`undefined`, yields an
element or `undefined` on arrays, a one-character string on strings, and
`undefined` on other non-null values. -/
def jindexE (v : JVal) (i : Nat) : Except String JVal :=
  match v with
  | .jnull => .error "TypeError: Cannot read properties of null (indexing)"
  | .jundefined => .error "TypeError: Cannot read properties of undefined (indexing)"
  | .jarr xs => .ok ((xs.get? i).getD .jundefined)
  | .jstr s => .ok (((s.data.get? i).map fun c => JVal.jstr (String.mk [c])).getD .jundefined)
  | _ => .ok .jundefined

/-- Index access after optional chaining, `v?.[i]` (and the non-throwing
uses of `v[i]` on values known non-null). -/
def optIndex (v : JVal) (i : Nat) : JVal :=
  match v with
  | .jarr xs => (xs.get? i).getD .jundefined
  | .jstr s => ((s.data.get? i).map fun c => JVal.jstr (String.mk [c])).getD .jundefined
  | _ => .jundefined

/-- JS `a || b`. -/
def jor (a b : JVal) : JVal := if truthy a then a else b

/-- Fields contributed by an object spread `{...v}`: object own fields,
index-keyed elements of arrays and strings, nothing for primitives. -/
def spreadFields : JVal → List (String × JVal)
  | .jobj fs => fs
  | .jarr xs => xs.enum.map fun p => (Nat.repr p.1, p.2)
  | .jstr s => s.data.enum.map fun p => (Nat.repr p.1, JVal.jstr (String.mk [p.2]))
  | _ => []

/-- Merge of two field lists in object-literal order (later writes win,
insertion order preserved). -/
def objMerge (base extra : List (String × JVal)) : List (String × JVal) :=
  extra.foldl (fun acc kv => aset acc kv.1 kv.2) base

/-- Fallible element-wise map with index (`Array.prototype.map`). -/
def jmapIdxE (f : JVal → Nat → Except String JVal) :
    List JVal → Nat → Except String (List JVal)
  | [], _ => .ok []
  | x :: xs, i =>
    match f x i with
    | .error e => .error e
    | .ok y =>
      match jmapIdxE f xs (i + 1) with
      | .error e => .error e
      | .ok ys => .ok (y :: ys)

/-- JS `v.map(f)`: throws unless `v` is an array. -/
def jmapE (v : JVal) (f : JVal → Nat → Except String JVal) : Except String JVal :=
  match v with
  | .jnull => .error "TypeError: Cannot read properties of null (reading map)"
  | .jundefined => .error "TypeError: Cannot read properties of undefined (reading map)"
  | .jarr xs =>
    match jmapIdxE f xs 0 with
    | .error e => .error e
    | .ok ys => .ok (.jarr ys)
  | _ => .error "TypeError: v.map is not a function"

/-- JS `ToNumber`, with `none` for `NaN`.  Non-empty numeric strings and
the `ToPrimitive` paths of arrays/objects are collapsed to `NaN`
(documented modelling choice; these corners are unreached by the
verified paths, which guard with truthiness checks first). -/
def toNumber : JVal → Option ℚ
  | .jnull => some 0
  | .jundefined => none
  | .jbool b => some (if b then 1 else 0)
  | .jnum q => some q
  | .jnan => none
  | .jstr s => if s = "" then some 0 else none
  | .jarr _ => none
  | .jobj _ => none

/-- `NaN`-propagating arithmetic on JS numbers. -/
def oadd (a b : Option ℚ) : Option ℚ :=
  match a, b with
  | some x, some y => some (x + y)
  | _, _ => none

/-- NaN-propagating subtraction. -/
def osub (a b : Option ℚ) : Option ℚ :=
  match a, b with
  | some x, some y => some (x - y)
  | _, _ => none

/-- NaN-propagating multiplication. -/
def omul (a b : Option ℚ) : Option ℚ :=
  match a, b with
  | some x, some y => some (x * y)
  | _, _ => none

/-- NaN-propagating division; division by zero (JS `Infinity`) is
conflated with `NaN` — the verified paths never divide by zero (the
feed count falls back to 8 through `|| 8` before dividing). -/
def odiv (a b : Option ℚ) : Option ℚ :=
  match a, b with
  | some x, some y => if y = 0 then none else some (x / y)
  | _, _ => none

/-- `Math.floor` lifted to JS numbers. -/
def ofloor (a : Option ℚ) : Option ℚ :=
  match a with
  | some x => some ((⌊x⌋ : Int) : ℚ)
  | none => none

/-- `Math.ceil` lifted to JS numbers. -/
def oceil (a : Option ℚ) : Option ℚ :=
  match a with
  | some x => some ((⌈x⌉ : Int) : ℚ)
  | none => none

/-- `Math.round` lifted to JS numbers. -/
def oround (a : Option ℚ) : Option ℚ :=
  match a with
  | some x => some ((jsRound x : Int) : ℚ)
  | none => none

/-- JS `a < b` on numbers: false when either side is `NaN`. -/
def olt (a : Option ℚ) (b : ℚ) : Bool :=
  match a with
  | some x => decide (x < b)
  | none => false

/-- JS `a <= b` on numbers: false when either side is `NaN`. -/
def oleq (a : Option ℚ) (b : ℚ) : Bool :=
  match a with
  | some x => decide (x ≤ b)
  | none => false

/-- JS `a > b` on numbers: false when either side is `NaN`. -/
def ogt (a : Option ℚ) (b : ℚ) : Bool :=
  match a with
  | some x => decide (b < x)
  | none => false

/-- Civil-calendar day number (days since 1970-01-01) of a Gregorian
date, as computed by `Date.UTC`. -/
def daysFromCivil (y m d : Int) : Int :=
  let y2 := y - (if m ≤ 2 then 1 else 0)
  let era := (if 0 ≤ y2 then y2 else y2 - 399) / 400
  let yoe := y2 - era * 400
  let mp := (m + 9) % 12
  let doy := (153 * mp + 2) / 5 + d - 1
  let doe := yoe * 365 + yoe / 4 - yoe / 100 + doy
  era * 146097 + doe - 719468

/-- Epoch milliseconds of `new Date("YYYY-MM-DD")` (UTC midnight).
Date strings in any other format are collapsed to `NaN` (the app's date
keys and date inputs are all ISO `YYYY-MM-DD`). -/
def parseIsoDateMs (s : String) : Option ℚ :=
  match (s.split fun c => c = '-').map String.toNat? with
  | [some y, some mo, some d] =>
    if 1 ≤ mo ∧ mo ≤ 12 ∧ 1 ≤ d ∧ d ≤ 31 then
      some ((daysFromCivil y mo d : Int) * 86400000 : ℚ)
    else none
  | _ => none

/-- `new Date(v).getTime()` for the values the milk engine feeds to the
`Date` constructor: ISO date strings and numeric timestamps; anything
else is `NaN` (an invalid date). -/
def jvalDateMs : JVal → Option ℚ
  | .jstr s => parseIsoDateMs s
  | .jnum q => some q
  | _ => none

/-- `getMlPerKgForAge(birthDate)`: age-banded mL/kg/day rate.  With an
unparsable birth date every `<` comparison against the `NaN` age is
false and the final 100 is returned. -/
def getMlPerKgForAge (birthDate : JVal) (nowMs : ℚ) : ℚ :=
  match jvalDateMs birthDate with
  | none => 100
  | some b =>
    let ageInDays : ℚ := ((⌊(nowMs - b) / 86400000⌋ : Int) : ℚ)
    let ageInMonths := ageInDays / (3044 / 100 : ℚ)
    if ageInMonths < 2 then 150
    else if ageInMonths < 4 then 140
    else if ageInMonths < 6 then 130
    else if ageInMonths < 9 then 120
    else 100

/-- `getGrowthRateForAge(birthDate)`: age-banded daily weight gain in
kg/day (0.030, 0.020, 0.012). -/
def getGrowthRateForAge (birthDate : JVal) (nowMs : ℚ) : ℚ :=
  match jvalDateMs birthDate with
  | none => 12 / 1000
  | some b =>
    let ageInDays : ℚ := ((⌊(nowMs - b) / 86400000⌋ : Int) : ℚ)
    let ageInMonths := ageInDays / (3044 / 100 : ℚ)
    if ageInMonths < 3 then 30 / 1000
    else if ageInMonths < 6 then 20 / 1000
    else 12 / 1000

/-- `getProjectedWeight(childIndex)` over the JSON-level document.
`data.children[childIndex]` is read through total indexing: in every
reached call the children array was just rebuilt and the index is in
range.  `weightKg` is read numerically (a truthy non-numeric `weightKg`
would string-concatenate in JS; unreached by the verified paths). -/
def getProjectedWeight (dat : JVal) (i : Nat) (nowMs : ℚ) : Option ℚ :=
  let child := optIndex (propOf dat "children") i
  if !(truthy (propOf child "weightKg")) || !(truthy (propOf child "birthDate")) then
    some 0
  else
    let lastWeight := toNumber (propOf child "weightKg")
    let wd := propOf child "weightDate"
    let weightDateMs := if truthy wd then jvalDateMs wd else some nowMs
    let daysSinceWeighIn := ofloor (odiv (osub (some nowMs) weightDateMs) (some 86400000))
    if oleq daysSinceWeighIn 0 then lastWeight
    else
      oadd lastWeight (omul daysSinceWeighIn
        (some (getGrowthRateForAge (propOf child "birthDate") nowMs)))

/-- `getDailyMilkTarget(childIndex)` over the JSON-level document. -/
def getDailyMilkTarget (dat : JVal) (i : Nat) (nowMs : ℚ) : Option ℚ :=
  let child := optIndex (propOf dat "children") i
  if !(truthy (propOf child "birthDate")) then some 0
  else
    oround (omul (getProjectedWeight dat i nowMs)
      (some (getMlPerKgForAge (propOf child "birthDate") nowMs)))

/-- `NaN`-aware injection of an arithmetic result back into `JVal`. -/
def jnumOf : Option ℚ → JVal
  | some q => .jnum q
  | none => .jnan

/-- `getRecommendedFeedAmount(childIndex)` over the JSON-level document.
`numFeeds` can never be 0: a zero `times.length` is falsy and falls back
to 8 through `|| 8`, so the division is well-defined.  In the
`dailyTarget === 0` case the source returns
`feedSchedule?.defaultAmount || 100` as-is, so the result type is a raw
JS value. -/
def getRecommendedFeedAmount (dat : JVal) (i : Nat) (nowMs : ℚ) : JVal :=
  let child := optIndex (propOf dat "children") i
  let feedSchedule := optIndex (propOf child "feedSchedules") 0
  let numFeeds := toNumber (jor (optChain (optChain feedSchedule "times") "length") (.jnum 8))
  let dailyTarget := getDailyMilkTarget dat i nowMs
  if dailyTarget = some 0 then
    jor (optChain feedSchedule "defaultAmount") (.jnum 100)
  else
    let perFeed := odiv dailyTarget numFeeds
    jnumOf (oadd (omul (oceil (odiv perFeed (some 5))) (some 5)) (some 5))

/-- Rational truncation toward zero (JS number-to-integer in `%`). -/
def qtrunc (q : ℚ) : Int := if 0 ≤ q then ⌊q⌋ else ⌈q⌉

/-- JS `%` remainder on numbers (sign follows the dividend). -/
def jsRem (a b : ℚ) : ℚ := a - b * (qtrunc (a / b))

/-- `Number(s)` for the hour components `generateDefaultTimes` splits
out of a start-time string: the empty string is 0, canonical
nonnegative integer strings parse, and every other string is collapsed
to `NaN`. -/
def parseJsNumber (s : String) : Option ℚ :=
  if s = "" then some 0
  else
    match s.toNat? with
    | some n => some n
    | none => none

/-- One hour label inside `generateDefaultTimes`:
`String(Math.floor((startHour + interval * i) % 24)).padStart(2, '0')`.
An unparsable start hour propagates `NaN`, rendered as the string
`"NaN"` (which `padStart(2, '0')` leaves unchanged). -/
def defaultTimeHourStr (startHour : Option ℚ) (interval : ℚ) (i : Nat) : String :=
  match startHour with
  | none => "NaN"
  | some h => padStart2 (jsNumStr ⌊jsRem (h + interval * i) 24⌋)

/-- `generateDefaultTimes(doses, startTime)`: evenly spaced whole-hour
times starting from the start hour.  Faithful corner behavior: the loop
`for (i = 0; i < doses; i++)` runs `⌈doses⌉` times for positive `doses`
and not at all for non-positive or `NaN` bounds; `24 / 0` is JS
`Infinity`, but with `doses = 0` the loop body is never reached, so the
interval is represented by 0 there.  `start.split(':')` throws when the
(truthy) start time is not a string. -/
def generateDefaultTimes (doses startTime : JVal) : Except String JVal :=
  match jor startTime (.jstr "08:00") with
  | .jstr s =>
    let startHour :=
      match (s.split fun c => c = ':').head? with
      | some h => parseJsNumber h
      | none => none
    let d := toNumber doses
    let iters : Nat :=
      match d with
      | none => 0
      | some q => if q ≤ 0 then 0 else (Int.ceil q).toNat
    let interval : ℚ :=
      match d with
      | some q => if q = 0 then 0 else 24 / q
      | none => 0
    .ok (.jarr ((List.range iters).map fun i =>
      .jstr (defaultTimeHourStr startHour interval i ++ ":00")))
  | _ => .error "TypeError: start.split is not a function"

/-- `Array.isArray`. -/
def jsIsArray : JVal → Bool
  | .jarr _ => true
  | _ => false

/-- The medication-mapping object literal inside `applyParsedData`:
`{...m, doseTimes: m.doseTimes || generateDefaultTimes(m.dosesPerDay, m.startTime)}`.
The `||` is short-circuiting, so `generateDefaultTimes` (which can
throw) only runs when `m.doseTimes` is falsy. -/
def mapMedication (m : JVal) : Except String JVal := do
  let dt ← propOfE m "doseTimes"
  let dt2 ← if truthy dt then pure dt
            else generateDefaultTimes (propOf m "dosesPerDay") (propOf m "startTime")
  pure (.jobj (objMerge (spreadFields m) [("doseTimes", dt2)]))

/-- The per-child object literal inside `applyParsedData`, evaluated in
source order against the pre-update document `dat0`
(`data.children[i]` is re-read for each fallback; the reads are pure,
so a single read is shared). -/
def mapChild (dat0 : JVal) (c : JVal) (i : Nat) : Except String JVal := do
  let oldChildren ← propOfE dat0 "children"
  let old ← jindexE oldChildren i
  let cb ← propOfE c "birthDate"
  let birthDate := jor cb (optChain old "birthDate")
  let cw ← propOfE c "weightKg"
  let weightKg := jor cw (optChain old "weightKg")
  let cwd ← propOfE c "weightDate"
  let weightDate := jor cwd (optChain old "weightDate")
  let cfs ← propOfE c "feedSchedules"
  let feedSchedules := jor cfs (.jarr [])
  let cms ← propOfE c "medications"
  let meds ← jmapE (jor cms (.jarr [])) (fun m _ => mapMedication m)
  pure (.jobj (objMerge (objMerge (spreadFields old) (spreadFields c))
    [("birthDate", birthDate), ("weightKg", weightKg), ("weightDate", weightDate),
     ("feedSchedules", feedSchedules), ("medications", meds)]))

/-- The per-day-log object literal inside `applyParsedData`:
`{...data.logs[i], ...l, diapers: Array.isArray(l.diapers) ? l.diapers : [],
meds: l.meds || [], feedAmounts: l.feedAmounts || {}}`. -/
def mapLog (dat0 : JVal) (l : JVal) (i : Nat) : Except String JVal := do
  let oldLogs ← propOfE dat0 "logs"
  let old ← jindexE oldLogs i
  let ld ← propOfE l "diapers"
  let diapers := if jsIsArray ld then ld else .jarr []
  let lm ← propOfE l "meds"
  let meds := jor lm (.jarr [])
  let lf ← propOfE l "feedAmounts"
  let fa := jor lf (.jobj [])
  pure (.jobj (objMerge (objMerge (spreadFields old) (spreadFields l))
    [("diapers", diapers), ("meds", meds), ("feedAmounts", fa)]))

/-- `applyParsedData(parsed)`'s document update: the big object literal
assigned to `data` (tracker.ts:2122-2146), with fields evaluated in
source order; any access that throws in JS is an `.error`. -/
def applyParsedData (parsed dat0 : JVal) : Except String JVal := do
  let cal ← propOfE parsed "calendarUrl"
  let oldCal ← propOfE dat0 "calendarUrl"
  let calendarUrl := jor cal oldCal
  let pc ← propOfE parsed "children"
  let children ← jmapE pc (fun c i => mapChild dat0 c i)
  let pl ← propOfE parsed "logs"
  let logs ← jmapE pl (fun l i => mapLog dat0 l i)
  let ph ← propOfE parsed "historicalLogs"
  let historicalLogs := jor ph (.jobj [])
  pure (.jobj (objMerge (objMerge (spreadFields dat0) (spreadFields parsed))
    [("calendarUrl", calendarUrl), ("children", children), ("logs", logs),
     ("historicalLogs", historicalLogs)]))

/-- Body of the `parsed.children?.forEach` loop at the end of
`applyParsedData`, folded over the parsed children; `dat` is the
already-updated document read by `getRecommendedFeedAmount`, `fa` the
per-child feed-amount store. -/
def refreshAux (dat : JVal) (nowMs : ℚ) :
    List JVal → Nat → List (Nat × JVal) → Except String (List (Nat × JVal))
  | [], _, fa => .ok fa
  | c :: cs, i, fa => do
    let recommended := getRecommendedFeedAmount dat i nowMs
    if ogt (toNumber recommended) 0 then
      refreshAux dat nowMs cs (i + 1) (aset fa i recommended)
    else
      let cfs ← propOfE c "feedSchedules"
      if truthy (optChain (optIndex cfs 0) "defaultAmount") then do
        let el ← jindexE cfs 0
        let da ← propOfE el "defaultAmount"
        refreshAux dat nowMs cs (i + 1) (aset fa i da)
      else
        refreshAux dat nowMs cs (i + 1) fa

/-- The `parsed.children?.forEach(...)` pass of `applyParsedData`
(tracker.ts:2148-2156): skipped when `parsed.children` is nullish,
throws when it is a non-array non-nullish value. -/
def refreshFeedAmounts (parsed dat : JVal) (nowMs : ℚ)
    (fa : List (Nat × JVal)) : Except String (List (Nat × JVal)) := do
  let pc ← propOfE parsed "children"
  match pc with
  | .jnull => pure fa
  | .jundefined => pure fa
  | .jarr cs => refreshAux dat nowMs cs 0 fa
  | _ => .error "TypeError: parsed.children.forEach is not a function"

/-- `applyParsedData(parsed)` in full: document update followed by the
feed-amount refresh. -/
def applyParsedDataFull (parsed dat0 : JVal) (fa : List (Nat × JVal))
    (nowMs : ℚ) : Except String (JVal × List (Nat × JVal)) := do
  let d2 ← applyParsedData parsed dat0
  let fa2 ← refreshFeedAmounts parsed d2 nowMs fa
  pure (d2, fa2)

/-- Values on which plain property access does not throw. -/
def notNullish : JVal → Bool
  | .jnull => false
  | .jundefined => false
  | _ => true

theorem propOfE_ok (v : JVal) (k : String) (h : notNullish v = true) :
    propOfE v k = .ok (propOf v k) := by
  cases v <;> first | rfl | simp [notNullish] at h

theorem jindexE_eq (v : JVal) (i : Nat) (h : notNullish v = true) :
    jindexE v i = .ok (optIndex v i) := by
  cases v <;> first | rfl | simp [notNullish] at h

theorem optChain_eq (v : JVal) (k : String) (h : notNullish v = true) :
    optChain v k = propOf v k := by
  cases v <;> first | rfl | simp [notNullish] at h

theorem truthy_optChain (v : JVal) (k : String)
    (h : truthy (optChain v k) = true) : notNullish v = true := by
  cases v <;> first | rfl | simp [optChain, truthy] at h

theorem optIndex_of_nullish (v : JVal) (i : Nat) (h : notNullish v = false) :
    optIndex v i = .jundefined := by
  cases v <;> first | rfl | simp [notNullish] at h

theorem ebind_ok {α β : Type} (a : α) (f : α → Except String β) :
    (Except.ok a >>= f : Except String β) = f a := rfl

theorem objMerge_cons (base : List (String × JVal)) (k : String) (v : JVal)
    (rest : List (String × JVal)) :
    objMerge base ((k, v) :: rest) = objMerge (aset base k v) rest := rfl

theorem objMerge_nil (base : List (String × JVal)) : objMerge base [] = base := rfl

/-- Field lookups on the per-log literal: the trailing `diapers`, `meds`
and `feedAmounts` writes win over anything in the spread base. -/
theorem propOf_logLit (M : List (String × JVal)) (d m f : JVal) :
    propOf (.jobj (objMerge M [("diapers", d), ("meds", m), ("feedAmounts", f)]))
      "diapers" = d ∧
    propOf (.jobj (objMerge M [("diapers", d), ("meds", m), ("feedAmounts", f)]))
      "meds" = m := by
  simp only [objMerge_cons, objMerge_nil, propOf]
  constructor
  · rw [alookup_aset_ne _ _ _ _ (by decide), alookup_aset_ne _ _ _ _ (by decide),
      alookup_aset_self]
    rfl
  · rw [alookup_aset_ne _ _ _ _ (by decide), alookup_aset_self]
    rfl

/-- Field lookup on the top-level literal of `applyParsedData`: the
`logs` write is observable in the result. -/
theorem propOf_docLit (M : List (String × JVal)) (cal ch lo hi : JVal) :
    propOf (.jobj (objMerge M [("calendarUrl", cal), ("children", ch),
      ("logs", lo), ("historicalLogs", hi)])) "logs" = lo := by
  simp only [objMerge_cons, objMerge_nil, propOf]
  rw [alookup_aset_ne _ _ _ _ (by decide), alookup_aset_self]
  rfl

/-- Success of `Array.prototype.map` from elementwise success, carrying
a pointwise relation between input and output elements. -/
theorem jmapIdxE_ok (f : JVal → Nat → Except String JVal) (P : JVal → JVal → Prop)
    (xs : List JVal)
    (hf : ∀ x ∈ xs, ∀ i, ∃ y, f x i = .ok y ∧ P x y) :
    ∀ i0, ∃ ys, jmapIdxE f xs i0 = .ok ys ∧ ys.length = xs.length ∧
      ∀ j x, xs.get? j = some x → ∃ y, ys.get? j = some y ∧ P x y := by
  induction xs with
  | nil =>
    intro i0
    exact ⟨[], rfl, rfl, by intro j x hx; simp at hx⟩
  | cons x xs ih =>
    intro i0
    obtain ⟨y, hy, hP⟩ := hf x (List.mem_cons_self _ _) i0
    obtain ⟨ys, hys, hlen, hrel⟩ :=
      ih (fun a ha i => hf a (List.mem_cons_of_mem _ ha) i) (i0 + 1)
    refine ⟨y :: ys, ?_, by simp [hlen], ?_⟩
    · simp only [jmapIdxE, hy, hys]
    · intro j a ha
      cases j with
      | zero =>
        simp only [List.get?] at ha
        exact ⟨y, rfl, by rw [← Option.some_inj.mp ha]; exact hP⟩
      | succ j =>
        simp only [List.get?] at ha ⊢
        exact hrel j a ha

theorem mapLog_ok (dat0 l : JVal) (i : Nat)
    (hd : notNullish dat0 = true)
    (hl : notNullish (propOf dat0 "logs") = true)
    (hnn : notNullish l = true) :
    ∃ lo, mapLog dat0 l i = .ok lo ∧
      propOf lo "diapers" = (if jsIsArray (propOf l "diapers")
        then propOf l "diapers" else .jarr []) ∧
      propOf lo "meds" = jor (propOf l "meds") (.jarr []) := by
  have h1 := propOfE_ok dat0 "logs" hd
  have h2 := jindexE_eq (propOf dat0 "logs") i hl
  have h3 := propOfE_ok l "diapers" hnn
  have h4 := propOfE_ok l "meds" hnn
  have h5 := propOfE_ok l "feedAmounts" hnn
  have heq : mapLog dat0 l i = .ok (.jobj (objMerge
      (objMerge (spreadFields (optIndex (propOf dat0 "logs") i)) (spreadFields l))
      [("diapers", if jsIsArray (propOf l "diapers")
          then propOf l "diapers" else .jarr []),
       ("meds", jor (propOf l "meds") (.jarr [])),
       ("feedAmounts", jor (propOf l "feedAmounts") (.jobj []))])) := by
    simp only [mapLog, h1, h2, h3, h4, h5, ebind_ok]
    rfl
  exact ⟨_, heq, (propOf_logLit _ _ _ _).1, (propOf_logLit _ _ _ _).2⟩

/-- Shape condition under which the medication-mapping inside
`applyParsedData` cannot throw: `medications` falsy, or an array of
non-nullish entries each carrying a truthy `doseTimes`. -/
def medsShapeOK (c : JVal) : Prop :=
  truthy (propOf c "medications") = false ∨
  ∃ ms, propOf c "medications" = .jarr ms ∧
    ∀ m ∈ ms, notNullish m = true ∧ truthy (propOf m "doseTimes") = true

theorem mapMedication_ok (m : JVal) (hm : notNullish m = true)
    (hdt : truthy (propOf m "doseTimes") = true) :
    mapMedication m = .ok (.jobj (objMerge (spreadFields m)
      [("doseTimes", propOf m "doseTimes")])) := by
  have h1 := propOfE_ok m "doseTimes" hm
  simp only [mapMedication, h1, ebind_ok, hdt]
  rfl

theorem mapChild_ok (dat0 c : JVal) (i : Nat)
    (hd : notNullish dat0 = true)
    (hdc : notNullish (propOf dat0 "children") = true)
    (hc : notNullish c = true)
    (hm : medsShapeOK c) :
    ∃ co, mapChild dat0 c i = .ok co := by
  have h1 := propOfE_ok dat0 "children" hd
  have h2 := jindexE_eq (propOf dat0 "children") i hdc
  have h3 := propOfE_ok c "birthDate" hc
  have h4 := propOfE_ok c "weightKg" hc
  have h5 := propOfE_ok c "weightDate" hc
  have h6 := propOfE_ok c "feedSchedules" hc
  have h7 := propOfE_ok c "medications" hc
  rcases hm with hfalsy | ⟨ms, hms, hok⟩
  · have hjor : jor (propOf c "medications") (.jarr []) = .jarr [] := by
      simp [jor, hfalsy]
    have heq : mapChild dat0 c i = .ok (.jobj (objMerge (objMerge
        (spreadFields (optIndex (propOf dat0 "children") i)) (spreadFields c))
        [("birthDate", jor (propOf c "birthDate")
            (optChain (optIndex (propOf dat0 "children") i) "birthDate")),
         ("weightKg", jor (propOf c "weightKg")
            (optChain (optIndex (propOf dat0 "children") i) "weightKg")),
         ("weightDate", jor (propOf c "weightDate")
            (optChain (optIndex (propOf dat0 "children") i) "weightDate")),
         ("feedSchedules", jor (propOf c "feedSchedules") (.jarr [])),
         ("medications", .jarr [])])) := by
      simp only [mapChild, h1, h2, h3, h4, h5, h6, h7, ebind_ok, hjor, jmapE,
        jmapIdxE]
      rfl
    exact ⟨_, heq⟩
  · have hjor : jor (propOf c "medications") (.jarr []) = .jarr ms := by
      simp [jor, hms, truthy]
    obtain ⟨ys, hys, -, -⟩ := jmapIdxE_ok (fun m _ => mapMedication m)
      (fun _ _ => True) ms
      (fun x hx i => ⟨_, mapMedication_ok x (hok x hx).1 (hok x hx).2, trivial⟩) 0
    have heq : mapChild dat0 c i = .ok (.jobj (objMerge (objMerge
        (spreadFields (optIndex (propOf dat0 "children") i)) (spreadFields c))
        [("birthDate", jor (propOf c "birthDate")
            (optChain (optIndex (propOf dat0 "children") i) "birthDate")),
         ("weightKg", jor (propOf c "weightKg")
            (optChain (optIndex (propOf dat0 "children") i) "weightKg")),
         ("weightDate", jor (propOf c "weightDate")
            (optChain (optIndex (propOf dat0 "children") i) "weightDate")),
         ("feedSchedules", jor (propOf c "feedSchedules") (.jarr [])),
         ("medications", .jarr ys)])) := by
      simp only [mapChild, h1, h2, h3, h4, h5, h6, h7, ebind_ok, hjor, jmapE, hys]
      rfl
    exact ⟨_, heq⟩

theorem refreshAux_ok (dat : JVal) (nowMs : ℚ) :
    ∀ (cs : List JVal) (i : Nat) (fa : List (Nat × JVal)),
      (∀ c ∈ cs, notNullish c = true) →
      ∃ fa2, refreshAux dat nowMs cs i fa = .ok fa2 := by
  intro cs
  induction cs with
  | nil => exact fun i fa _ => ⟨fa, rfl⟩
  | cons c cs ih =>
    intro i fa hcs
    have hc : notNullish c = true := hcs c (List.mem_cons_self _ _)
    have hrest : ∀ x ∈ cs, notNullish x = true :=
      fun x hx => hcs x (List.mem_cons_of_mem _ hx)
    have h6 := propOfE_ok c "feedSchedules" hc
    by_cases hrec : ogt (toNumber (getRecommendedFeedAmount dat i nowMs)) 0 = true
    · obtain ⟨fa2, hfa2⟩ :=
        ih (i + 1) (aset fa i (getRecommendedFeedAmount dat i nowMs)) hrest
      refine ⟨fa2, ?_⟩
      simp only [refreshAux, hrec, if_true, hfa2]
    · have hrec2 : ogt (toNumber (getRecommendedFeedAmount dat i nowMs)) 0 = false :=
        Bool.eq_false_iff.mpr hrec
      by_cases htr : truthy (optChain
          (optIndex (propOf c "feedSchedules") 0) "defaultAmount") = true
      · have hel : notNullish (optIndex (propOf c "feedSchedules") 0) = true :=
          truthy_optChain _ _ htr
        have hcfs : notNullish (propOf c "feedSchedules") = true := by
          by_contra hno
          have hf : notNullish (propOf c "feedSchedules") = false :=
            Bool.eq_false_iff.mpr hno
          rw [optIndex_of_nullish _ _ hf] at hel
          exact absurd hel (by decide)
        have hji := jindexE_eq (propOf c "feedSchedules") 0 hcfs
        have hpe := propOfE_ok (optIndex (propOf c "feedSchedules") 0)
          "defaultAmount" hel
        obtain ⟨fa2, hfa2⟩ := ih (i + 1)
          (aset fa i (propOf (optIndex (propOf c "feedSchedules") 0)
            "defaultAmount")) hrest
        refine ⟨fa2, ?_⟩
        simp only [refreshAux, hrec2, Bool.false_eq_true, if_false, h6, ebind_ok,
          htr, if_true, hji, hpe, hfa2]
      · have htr2 : truthy (optChain
            (optIndex (propOf c "feedSchedules") 0) "defaultAmount") = false :=
          Bool.eq_false_iff.mpr htr
        obtain ⟨fa2, hfa2⟩ := ih (i + 1) fa hrest
        refine ⟨fa2, ?_⟩
        simp only [refreshAux, hrec2, Bool.false_eq_true, if_false, h6, ebind_ok,
          htr2, hfa2]

theorem refreshFeedAmounts_ok (parsed dat : JVal) (nowMs : ℚ)
    (fa : List (Nat × JVal)) (cs : List JVal)
    (hpn : notNullish parsed = true)
    (hpc : propOf parsed "children" = .jarr cs)
    (hcs : ∀ c ∈ cs, notNullish c = true) :
    ∃ fa2, refreshFeedAmounts parsed dat nowMs fa = .ok fa2 := by
  have h1 := propOfE_ok parsed "children" hpn
  obtain ⟨fa2, hfa2⟩ := refreshAux_ok dat nowMs cs 0 fa hcs
  refine ⟨fa2, ?_⟩
  simp only [refreshFeedAmounts, h1, ebind_ok, hpc, hfa2]

theorem applyParsedData_ok (parsed dat0 : JVal) (cs ls : List JVal)
    (hpn : notNullish parsed = true)
    (hpc : propOf parsed "children" = .jarr cs)
    (hpl : propOf parsed "logs" = .jarr ls)
    (hd0 : notNullish dat0 = true)
    (hdc : notNullish (propOf dat0 "children") = true)
    (hdl : notNullish (propOf dat0 "logs") = true)
    (hcs : ∀ c ∈ cs, notNullish c = true ∧ medsShapeOK c)
    (hls : ∀ l ∈ ls, notNullish l = true) :
    ∃ d2 los, applyParsedData parsed dat0 = .ok d2 ∧
      propOf d2 "logs" = .jarr los ∧ los.length = ls.length ∧
      ∀ j l, ls.get? j = some l → ∃ lo, los.get? j = some lo ∧
        propOf lo "diapers" = (if jsIsArray (propOf l "diapers")
          then propOf l "diapers" else .jarr []) ∧
        propOf lo "meds" = jor (propOf l "meds") (.jarr []) := by
  have h1 := propOfE_ok parsed "calendarUrl" hpn
  have h2 := propOfE_ok dat0 "calendarUrl" hd0
  have h3 := propOfE_ok parsed "children" hpn
  have h4 := propOfE_ok parsed "logs" hpn
  have h5 := propOfE_ok parsed "historicalLogs" hpn
  obtain ⟨chs, hchs, -, -⟩ := jmapIdxE_ok (fun c i => mapChild dat0 c i)
    (fun _ _ => True) cs
    (fun x hx i => by
      obtain ⟨co, hco⟩ := mapChild_ok dat0 x i hd0 hdc (hcs x hx).1 (hcs x hx).2
      exact ⟨co, hco, trivial⟩) 0
  obtain ⟨los, hlos, hlen, hrel⟩ := jmapIdxE_ok (fun l i => mapLog dat0 l i)
    (fun l lo =>
      propOf lo "diapers" = (if jsIsArray (propOf l "diapers")
        then propOf l "diapers" else .jarr []) ∧
      propOf lo "meds" = jor (propOf l "meds") (.jarr [])) ls
    (fun x hx i => mapLog_ok dat0 x i hd0 hdl (hls x hx)) 0
  have heq : applyParsedData parsed dat0 = .ok (.jobj (objMerge
      (objMerge (spreadFields dat0) (spreadFields parsed))
      [("calendarUrl", jor (propOf parsed "calendarUrl") (propOf dat0 "calendarUrl")),
       ("children", .jarr chs), ("logs", .jarr los),
       ("historicalLogs", jor (propOf parsed "historicalLogs") (.jobj []))])) := by
    simp only [applyParsedData, h1, h2, h3, h4, h5, ebind_ok, hpc, hpl, jmapE,
      hchs, hlos]
    rfl
  exact ⟨_, los, heq, propOf_docLit _ _ _ _ _, hlen, hrel⟩

/-- The initial `data` document (tracker.ts:236-247) as a JSON value. -/
def c4DefaultChild (nm : String) : JVal :=
  .jobj [("name", .jstr nm), ("medications", .jarr []), ("feedSchedules", .jarr [])]

def c4DefaultLog : JVal :=
  .jobj [("feeds", .jarr []), ("diapers", .jarr []), ("meds", .jarr []),
         ("medsDone", .jobj []), ("feedAmounts", .jobj [])]

def c4DefaultDoc : JVal :=
  .jobj [("children", .jarr [c4DefaultChild "Emily", c4DefaultChild "Jimmy"]),
         ("today", .jnull),
         ("logs", .jarr [c4DefaultLog, c4DefaultLog]),
         ("historicalLogs", .jobj [])]

/-- The initial `feedAmounts` store (`[120, 120]`). -/
def c4DefaultFeedAmounts : List (Nat × JVal) := [(0, .jnum 120), (1, .jnum 120)]

/-- An incoming document whose first log carries a truthy non-array
`meds` (and a non-array `diapers`). -/
def c4MedsDoc : JVal :=
  .jobj [("children", .jarr []),
         ("logs", .jarr [.jobj [("meds", .jnum 5), ("diapers", .jnum 7)]])]

/-- **C4, counterexample.**  The ingestion function is not total and
does not coerce `meds` to a list: applying it to the empty object
(no `children` array) throws, and applying it to a document whose log
has `meds: 5` succeeds but keeps `meds` as the number 5 (only `diapers`
is coerced to `[]`). -/
theorem c4_counterexample :
    (∃ e, applyParsedDataFull (JVal.jobj []) c4DefaultDoc c4DefaultFeedAmounts 0
      = .error e) ∧
    (∃ d2 fa2,
      applyParsedDataFull c4MedsDoc c4DefaultDoc c4DefaultFeedAmounts 0
        = .ok (d2, fa2) ∧
      propOf (optIndex (propOf d2 "logs") 0) "meds" = JVal.jnum 5 ∧
      propOf (optIndex (propOf d2 "logs") 0) "diapers" = JVal.jarr []) :=
  ⟨⟨_, rfl⟩, ⟨_, _, rfl, rfl, rfl⟩⟩

/-- **C4, amended.**  `applyParsedData` never throws provided the
incoming document is non-nullish with array-valued `children` and
`logs` whose entries are non-nullish and whose children's
`medications` are falsy or arrays of non-nullish entries with truthy
`doseTimes` (and the pre-update document exposes non-nullish
`children` and `logs`).  Under those shapes, each ingested log's
`diapers` is the incoming value exactly when it is an array and `[]`
otherwise, while `meds` is replaced by `[]` only when the incoming
value is falsy — a truthy non-array `meds` is kept verbatim. -/
theorem c4_ingestion_amended
    (parsed dat0 : JVal) (fa0 : List (Nat × JVal)) (nowMs : ℚ)
    (cs ls : List JVal)
    (hpn : notNullish parsed = true)
    (hpc : propOf parsed "children" = .jarr cs)
    (hpl : propOf parsed "logs" = .jarr ls)
    (hd0 : notNullish dat0 = true)
    (hdc : notNullish (propOf dat0 "children") = true)
    (hdl : notNullish (propOf dat0 "logs") = true)
    (hcs : ∀ c ∈ cs, notNullish c = true ∧ medsShapeOK c)
    (hls : ∀ l ∈ ls, notNullish l = true) :
    ∃ d2 fa2 los,
      applyParsedDataFull parsed dat0 fa0 nowMs = .ok (d2, fa2) ∧
      propOf d2 "logs" = .jarr los ∧ los.length = ls.length ∧
      ∀ j l, ls.get? j = some l → ∃ lo, los.get? j = some lo ∧
        propOf lo "diapers" = (if jsIsArray (propOf l "diapers")
          then propOf l "diapers" else .jarr []) ∧
        propOf lo "meds" = jor (propOf l "meds") (.jarr []) := by
  obtain ⟨d2, los, hd2, hlogs, hlen, hrel⟩ :=
    applyParsedData_ok parsed dat0 cs ls hpn hpc hpl hd0 hdc hdl hcs hls
  obtain ⟨fa2, hfa2⟩ := refreshFeedAmounts_ok parsed d2 nowMs fa0 cs hpn hpc
    (fun c hc => (hcs c hc).1)
  refine ⟨d2, fa2, los, ?_, hlogs, hlen, hrel⟩
  simp only [applyParsedDataFull, hd2, ebind_ok, hfa2]
  rfl

theorem c4_ingestion_amended_witness :
    notNullish c4MedsDoc = true ∧
    (∃ d2 fa2 los,
      applyParsedDataFull c4MedsDoc c4DefaultDoc c4DefaultFeedAmounts 0
        = .ok (d2, fa2) ∧
      propOf d2 "logs" = .jarr los ∧
      los.length =
        ([JVal.jobj [("meds", JVal.jnum 5), ("diapers", JVal.jnum 7)]] :
          List JVal).length ∧
      ∀ j l, ([JVal.jobj [("meds", JVal.jnum 5), ("diapers", JVal.jnum 7)]] :
          List JVal).get? j = some l →
        ∃ lo, los.get? j = some lo ∧
          propOf lo "diapers" = (if jsIsArray (propOf l "diapers")
            then propOf l "diapers" else .jarr []) ∧
          propOf lo "meds" = jor (propOf l "meds") (.jarr [])) :=
  ⟨rfl, c4_ingestion_amended c4MedsDoc c4DefaultDoc c4DefaultFeedAmounts 0
    [] [JVal.jobj [("meds", JVal.jnum 5), ("diapers", JVal.jnum 7)]]
    rfl rfl rfl rfl rfl rfl
    (fun c hc => absurd hc (List.not_mem_nil c))
    (fun l hl => by
      rw [List.mem_singleton] at hl
      rw [hl]
      rfl)⟩

/-- JS strict equality `===` on the values compared by the realtime
handler (`updated_at` strings and the initial `null`).  `NaN === NaN`
is false; distinct object or array expressions compare by reference and
are modelled as unequal. -/
def jsStrictEq : JVal → JVal → Bool
  | .jnull, .jnull => true
  | .jundefined, .jundefined => true
  | .jbool a, .jbool b => a = b
  | .jnum a, .jnum b => a = b
  | .jstr a, .jstr b => a = b
  | _, _ => false

/-- The payload handed to the realtime callback by `subscribeToChanges`
(supabase.ts:107-114). -/
structure RtPayload where
  eventType : String
  newRow : JVal
  oldRow : JVal

/-- The module state read and written by the realtime callback:
the tracker document `data`, the `feedAmounts` store, the
`lastSaveTimestamp` / `lastKnownUpdatedAt` sync markers, and the
`localStorage['twinsTracker']` mirror. -/
structure RtState where
  data : JVal
  feedAmounts : List (Nat × JVal)
  lastSaveTimestamp : ℚ
  lastKnownUpdatedAt : JVal
  localCache : Option JVal

/-- The realtime change callback installed by `setupRealtimeSync`
(tracker.ts:2240-2288), with `Date.now()` passed in as `nowMs`.
`lastKnownUpdatedAt` is assigned before `applyParsedData` runs; when
the apply throws, the exception escapes the callback and the document
and cache are left untouched (the `finally` block only clears the
re-entrancy flag). -/
def handleRealtimeChange (p : RtPayload) (nowMs : ℚ) (st : RtState) :
    Except String RtState :=
  if p.eventType ≠ "UPDATE" ∧ p.eventType ≠ "INSERT" then .ok st
  else if ¬ truthy p.newRow then .ok st
  else if ¬ truthy (propOf p.newRow "data") then .ok st
  else
    let remoteUpdatedAt := propOf p.newRow "updated_at"
    if nowMs - st.lastSaveTimestamp < 2000 then
      .ok { st with lastKnownUpdatedAt := remoteUpdatedAt }
    else if jsStrictEq remoteUpdatedAt st.lastKnownUpdatedAt then .ok st
    else
      let st1 := { st with lastKnownUpdatedAt := remoteUpdatedAt }
      match applyParsedDataFull (propOf p.newRow "data") st1.data
          st1.feedAmounts nowMs with
      | .error e => .error e
      | .ok (d2, fa2) =>
        .ok { st1 with data := d2, feedAmounts := fa2, localCache := some d2 }

/-- **C1.**  For every realtime notification that passes the event-type
and payload guards, with remote timestamp `T = newRow.updated_at`:
arriving within 2 seconds of the last local save, the handler only
records `T` as the last known remote timestamp; otherwise, when `T`
strictly equals the recorded timestamp, the notification is a no-op;
otherwise the remote document is applied into the local state, mirrored
into the persistence cache, and `T` is recorded. -/
theorem c1_realtime_echo_suppression
    (p : RtPayload) (nowMs : ℚ) (st : RtState)
    (hev : p.eventType = "UPDATE" ∨ p.eventType = "INSERT")
    (hnew : truthy p.newRow = true)
    (hdata : truthy (propOf p.newRow "data") = true) :
    (nowMs - st.lastSaveTimestamp < 2000 →
      handleRealtimeChange p nowMs st =
        .ok { st with lastKnownUpdatedAt := propOf p.newRow "updated_at" }) ∧
    (¬ (nowMs - st.lastSaveTimestamp < 2000) →
      jsStrictEq (propOf p.newRow "updated_at") st.lastKnownUpdatedAt = true →
      handleRealtimeChange p nowMs st = .ok st) ∧
    (∀ d2 fa2, ¬ (nowMs - st.lastSaveTimestamp < 2000) →
      jsStrictEq (propOf p.newRow "updated_at") st.lastKnownUpdatedAt = false →
      applyParsedDataFull (propOf p.newRow "data") st.data st.feedAmounts nowMs
        = .ok (d2, fa2) →
      handleRealtimeChange p nowMs st =
        .ok { st with
                lastKnownUpdatedAt := propOf p.newRow "updated_at",
                data := d2,
                feedAmounts := fa2,
                localCache := some d2 }) := by
  have hg1 : ¬ (p.eventType ≠ "UPDATE" ∧ p.eventType ≠ "INSERT") := by
    rcases hev with h | h <;> simp [h]
  have hg2 : ¬ (¬ truthy p.newRow = true) := by simp [hnew]
  have hg3 : ¬ (¬ truthy (propOf p.newRow "data") = true) := by simp [hdata]
  refine ⟨?_, ?_, ?_⟩
  · intro ht
    simp only [handleRealtimeChange]
    rw [if_neg hg1, if_neg hg2, if_neg hg3, if_pos ht]
  · intro ht hsame
    simp only [handleRealtimeChange]
    rw [if_neg hg1, if_neg hg2, if_neg hg3, if_neg ht, if_pos hsame]
  · intro d2 fa2 ht hdiff happ
    simp only [handleRealtimeChange]
    rw [if_neg hg1, if_neg hg2, if_neg hg3, if_neg ht]
    rw [if_neg (by simp [hdiff])]
    simp only [happ]

/-- A concrete remote notification: an `UPDATE` row whose document has
empty `children` and `logs`. -/
def c1Payload : RtPayload :=
  ⟨"UPDATE",
   .jobj [("data", .jobj [("children", .jarr []), ("logs", .jarr [])]),
          ("updated_at", .jstr "2024-01-02T00:00:00Z")],
   .jnull⟩

/-- A local state whose last save is old and whose last known remote
timestamp differs from the incoming one. -/
def c1State : RtState :=
  ⟨c4DefaultDoc, c4DefaultFeedAmounts, 0, .jstr "2024-01-01T00:00:00Z", none⟩

theorem c1_realtime_echo_suppression_witness :
    (truthy c1Payload.newRow = true ∧
      truthy (propOf c1Payload.newRow "data") = true) ∧
    ((5000 - c1State.lastSaveTimestamp < 2000 →
      handleRealtimeChange c1Payload 5000 c1State =
        .ok { c1State with
          lastKnownUpdatedAt := propOf c1Payload.newRow "updated_at" }) ∧
    (¬ ((5000 : ℚ) - c1State.lastSaveTimestamp < 2000) →
      jsStrictEq (propOf c1Payload.newRow "updated_at")
        c1State.lastKnownUpdatedAt = true →
      handleRealtimeChange c1Payload 5000 c1State = .ok c1State) ∧
    (∀ d2 fa2, ¬ ((5000 : ℚ) - c1State.lastSaveTimestamp < 2000) →
      jsStrictEq (propOf c1Payload.newRow "updated_at")
        c1State.lastKnownUpdatedAt = false →
      applyParsedDataFull (propOf c1Payload.newRow "data") c1State.data
        c1State.feedAmounts 5000 = .ok (d2, fa2) →
      handleRealtimeChange c1Payload 5000 c1State =
        .ok { c1State with
                lastKnownUpdatedAt := propOf c1Payload.newRow "updated_at",
                data := d2,
                feedAmounts := fa2,
                localCache := some d2 })) :=
  ⟨⟨rfl, rfl⟩,
   c1_realtime_echo_suppression c1Payload 5000 c1State (Or.inl rfl) rfl rfl⟩
